import Mathlib

/-!
# Verification of `md2pdf.py` (arpitbhau/readme-to-pdf)

Shallow embedding of the single source file `src/md2pdf.py`.

The program converts Markdown to themed HTML/PDF.  The component with
actual logic is `copy_images` (image relocation with path rewriting);
the orchestrator `main` sequences conversion, a temporary `temp.html`
artifact and a startup probe of the external `wkhtmltopdf` renderer.

Modelling choices:
* Paths are `String`s; the `os.path` functions used by the program
  (`join`, `normpath`, `dirname`, `abspath`) are implemented faithfully
  following CPython's posixpath semantics, as workers on `List Char`.
* The filesystem is an explicit state (`FS`): a finite association list
  from resolved absolute paths to file data (content and mtime), plus a
  list of known directories.  Resolution of a raw path against the
  current working directory models kernel path resolution (no symlinks).
* Fallible operations (`shutil.copy2`, `os.makedirs`) return errors
  mirroring the Python exceptions they raise (`SameFileError`,
  `IsADirectoryError`, `FileExistsError`, `FileNotFoundError`).
* Third-party collaborators (markdown2, BeautifulSoup parse/serialize,
  pdfkit) are parameters of the model (`Ext`); `copy_images` takes the
  parse and serialize functions explicitly.  An HTML tree is a list of
  nodes, each either text or an `img` element with an optional `src`
  attribute, which is exactly the interface the program uses
  (`find_all('img')`, `img.get('src')`, `img['src'] = ...`, `str(soup)`).
* Each `copy_images` run also returns a trace of the filesystem
  operations it performed (existence checks, directory creation, copies)
  so that "no filesystem access" claims are statable.
-/

namespace Md2Pdf

/-! ## posixpath primitives (workers on `List Char`) -/

/-- `hasPre p s`: the char list `p` is a prefix of `s` (`str.startswith`). -/
def hasPre : List Char → List Char → Bool
  | [], _ => true
  | _ :: _, [] => false
  | p :: ps, s :: ss => p = s && hasPre ps ss

/-- Split a char list on a separator char (`str.split(sep)` for one-char sep). -/
def splitChar (c : Char) : List Char → List (List Char)
  | [] => [[]]
  | x :: xs =>
    if x = c then [] :: splitChar c xs
    else
      match splitChar c xs with
      | g :: gs => (x :: g) :: gs
      | [] => [[x]]

/-- `'/'.join(comps)`. -/
def interSlash : List (List Char) → List Char
  | [] => []
  | [c] => c
  | c :: cs => c ++ '/' :: interSlash cs

/-- Number of initial slashes retained by `posixpath.normpath`:
one, except exactly two when the path starts with `//` but not `///`. -/
def slashCount (l : List Char) : Nat :=
  if hasPre ['/', '/', '/'] l then 1
  else if hasPre ['/', '/'] l then 2
  else if hasPre ['/'] l then 1
  else 0

/-- One step of the component filter of `posixpath.normpath`:
drop empty and `.` components, let `..` cancel a previous real component,
keep `..` when it cannot cancel (relative path head). -/
def npFold (k : Nat) (acc : List (List Char)) (comp : List Char) : List (List Char) :=
  if comp = [] ∨ comp = ['.'] then acc
  else if comp ≠ ['.', '.'] ∨ (k = 0 ∧ acc = []) ∨ (acc ≠ [] ∧ acc.getLast? = some ['.', '.']) then
    acc ++ [comp]
  else if acc ≠ [] then acc.dropLast else acc

/-- `posixpath.normpath` on char lists. -/
def normpathData (p : List Char) : List Char :=
  if p = [] then ['.']
  else
    let k := slashCount p
    let nc := (splitChar '/' p).foldl (npFold k) []
    let res := List.replicate k '/' ++ interSlash nc
    if res = [] then ['.'] else res

/-- `posixpath.dirname` on char lists: everything up to the last slash,
with trailing slashes stripped unless the head is all slashes. -/
def dirnameData (p : List Char) : List Char :=
  let n := p.length - (p.reverse.takeWhile (fun c => c ≠ '/')).length
  let head := p.take n
  if head ≠ [] ∧ ¬ head.all (fun c => c = '/') then
    (head.reverse.dropWhile (fun c => c = '/')).reverse
  else head

/-- `posixpath.join(a, b)` on char lists (two-argument form). -/
def joinPathData (a b : List Char) : List Char :=
  if hasPre ['/'] b then b
  else if a = [] ∨ a.getLast? = some '/' then a ++ b
  else a ++ '/' :: b

/-! ## posixpath primitives (String wrappers) -/

/-- `str.startswith` for the model. -/
def strHasPre (s p : String) : Bool := hasPre p.data s.data

/-- `os.path.isabs`. -/
def isAbs (p : String) : Bool := hasPre ['/'] p.data

/-- `os.path.join` (two arguments). -/
def joinPath (a b : String) : String := ⟨joinPathData a.data b.data⟩

/-- `os.path.normpath`. -/
def normpath (p : String) : String := ⟨normpathData p.data⟩

/-- `os.path.dirname`. -/
def dirname (p : String) : String := ⟨dirnameData p.data⟩

/-- `os.path.basename`: everything after the last slash. -/
def basename (p : String) : String :=
  ⟨(p.data.reverse.takeWhile (fun c => c ≠ '/')).reverse⟩

/-- `os.path.abspath` relative to an explicit working directory `cwd`. -/
def abspath (cwd p : String) : String :=
  if isAbs p then normpath p else normpath (joinPath cwd p)

/-- Kernel-level resolution of a raw path against the working directory:
the key under which the filesystem stores the corresponding entry. -/
def resolveP (cwd p : String) : String := abspath cwd p

/-! ## Filesystem state -/

/-- Content and modification time of one regular file.  `shutil.copy2`
preserves both; plain writes create fresh metadata. -/
structure FileData where
  content : String
  mtime : Nat
deriving DecidableEq, Repr

/-- Python-level exceptions the modelled operations can raise. -/
inductive PyError where
  /-- `shutil.SameFileError`: source and destination are the same file. -/
  | sameFile
  /-- `IsADirectoryError`. -/
  | isADirectory
  /-- `FileNotFoundError`. -/
  | fileNotFound
  /-- `FileExistsError` / `NotADirectoryError` from `os.makedirs` hitting a file. -/
  | fileExists
  /-- `OSError` from pdfkit / wkhtmltopdf. -/
  | osError
deriving DecidableEq, Repr

/-- The filesystem: files keyed by resolved absolute path (later entries
shadow earlier ones), plus known directories (resolved absolute paths). -/
structure FS where
  files : List (String × FileData)
  dirs : List String
deriving DecidableEq, Repr

/-- Look up a file by resolved path. -/
def FS.file? (fs : FS) (p : String) : Option FileData :=
  (fs.files.find? (fun kv => kv.1 == p)).map (fun kv => kv.2)

/-- Is `p` (resolved) a directory?  The filesystem root (an all-slash
path) always exists. -/
def FS.hasDir (fs : FS) (p : String) : Bool :=
  fs.dirs.contains p || (¬ p.data = [] && p.data.all (fun c => c = '/'))

/-- Create or overwrite the file at resolved path `p`. -/
def FS.setFile (fs : FS) (p : String) (d : FileData) : FS :=
  ⟨(p, d) :: fs.files, fs.dirs⟩

/-- Delete the file at resolved path `p` (`os.remove`). -/
def FS.remFile (fs : FS) (p : String) : FS :=
  ⟨fs.files.filter (fun kv => kv.1 != p), fs.dirs⟩

/-- `os.path.exists` on a raw path. -/
def FS.existsP (fs : FS) (cwd p : String) : Bool :=
  (fs.file? (resolveP cwd p)).isSome || fs.hasDir (resolveP cwd p)

/-- Ancestor paths obtained by extending `base` with each further
component in turn. -/
def chainFrom (base : String) : List (List Char) → List String
  | [] => []
  | c :: cs =>
    (base ++ "/" ++ String.mk c) :: chainFrom (base ++ "/" ++ String.mk c) cs

/-- The chain of ancestor paths ("/a", "/a/b", ...) of a resolved
absolute path, in creation order for `os.makedirs`. -/
def chainPaths (p : String) : List String :=
  chainFrom ⟨List.replicate (slashCount p.data - 1) '/'⟩
    ((splitChar '/' p.data).filter (fun c => c ≠ []))

/-- Create each directory of a chain in order; a regular file sitting at
any of them raises (as `os.makedirs` does even with `exist_ok=True`),
leaving the directories created so far in place. -/
def FS.mkChain : FS → List String → FS × Option PyError
  | fs, [] => (fs, none)
  | fs, q :: qs =>
    if (fs.file? q).isSome then (fs, some .fileExists)
    else if fs.hasDir q then FS.mkChain fs qs
    else FS.mkChain ⟨fs.files, q :: fs.dirs⟩ qs

/-- `os.makedirs(p, exist_ok=True)` on a raw path. -/
def FS.makedirs (fs : FS) (cwd p : String) : FS × Option PyError :=
  fs.mkChain (chainPaths (resolveP cwd p))

/-- `shutil.copy2(src, dst)`: a directory destination redirects into
the directory (`dst = os.path.join(dst, os.path.basename(src))`); then
`copyfile` raises `SameFileError` when source and destination are the
same file, raises `IsADirectoryError` when the source (or the final
destination) is a directory, and otherwise copies content and metadata,
overwriting the destination. -/
def FS.copy2 (fs : FS) (cwd src dst : String) : Except PyError FS :=
  let dst1 := if fs.hasDir (resolveP cwd dst) then joinPath dst (basename src) else dst
  let sp := resolveP cwd src
  let dp := resolveP cwd dst1
  if sp = dp then .error .sameFile
  else
    match fs.file? sp with
    | some d => if fs.hasDir dp then .error .isADirectory else .ok (fs.setFile dp d)
    | none => if fs.hasDir sp then .error .isADirectory else .error .fileNotFound

/-- A well-formed filesystem: no path is simultaneously a regular file
and a directory (always true of a real filesystem). -/
def FS.wf (fs : FS) : Bool := fs.files.all (fun kv => !(fs.hasDir kv.1))

/-- `open(p).read()` on a raw path. -/
def FS.read? (fs : FS) (cwd p : String) : Except PyError String :=
  match fs.file? (resolveP cwd p) with
  | some d => .ok d.content
  | none =>
    if fs.hasDir (resolveP cwd p) then .error .isADirectory else .error .fileNotFound

/-! ## HTML documents as the program observes them -/

/-- A node of the parsed HTML tree, restricted to what `copy_images`
observes: `img` elements (with their optional `src` attribute) and
everything else (opaque text). -/
inductive Node where
  | text (s : String)
  | img (src : Option String)
deriving DecidableEq, Repr

/-- Serialization of one node (a concrete `str(soup)` used to
instantiate the abstract serializer in witnesses). -/
def renderNode : Node → String
  | .text t => t
  | .img none => "<img/>"
  | .img (some s) => "<img src=\"" ++ s ++ "\"/>"

/-- Concrete serializer instance: concatenate the nodes. -/
def renderHtml (ns : List Node) : String := String.join (ns.map renderNode)

/-! ## The image relocator `copy_images` (md2pdf.py lines 53-102) -/

/-- One filesystem access performed by `copy_images`. -/
inductive FSOp where
  /-- `os.path.exists` check. -/
  | statOp (p : String)
  /-- `os.makedirs(..., exist_ok=True)`. -/
  | mkdirsOp (p : String)
  /-- `shutil.copy2`. -/
  | copyOp (src dst : String)
deriving DecidableEq, Repr

/-- The `src` adjustment of lines 81-85: strip a leading `./`;
normalize a `../`-prefixed source against the input directory. -/
def srcAdjust (inDir s : String) : String :=
  if strHasPre s "./" then ⟨s.data.drop 2⟩
  else if strHasPre s "../" then normpath (joinPath inDir s)
  else s

/-- The stripped form of a source: a leading `./` removed (line 82);
other sources unchanged. -/
def stripDot (s : String) : String :=
  if strHasPre s "./" then ⟨s.data.drop 2⟩ else s

/-- A source the loop treats as plain relative: truthy (nonempty), not
absolute, and not `../`-prefixed. -/
abbrev relSrc (s : String) : Prop :=
  ¬ s = "" ∧ isAbs s = false ∧ strHasPre s "../" = false

/-- The source attributes of the image elements of a document, in
document order. -/
def imgSrcs : List Node → List String
  | [] => []
  | .img (some t) :: ns => t :: imgSrcs ns
  | .img none :: ns => imgSrcs ns
  | .text _ :: ns => imgSrcs ns

/-- Result of processing one node: the (possibly rewritten) node, or the
Python exception that aborted the loop; each with the filesystem state
and the trace of operations performed. -/
inductive PResult where
  | pok (n : Node) (fs : FS) (tr : List FSOp)
  | perr (e : PyError) (fs : FS) (tr : List FSOp)
deriving DecidableEq, Repr

/-- The body of the `for img in img_tags` loop (lines 77-100) for a
single node.  Non-`img` nodes and `img` nodes with an absent or falsy
(empty) `src` are untouched. -/
def processNode (inDir outDir cwd : String) (fs : FS) : Node → PResult
  | .text t => .pok (.text t) fs []
  | .img none => .pok (.img none) fs []
  | .img (some s) =>
    if s = "" then .pok (.img (some s)) fs []
    else
      let s2 := srcAdjust inDir s
      let imgPath := joinPath inDir s2
      if fs.existsP cwd imgPath then
        let rel := dirname s2
        let mk := if rel = "" then (fs, none) else fs.makedirs cwd (joinPath outDir rel)
        let mkTr := if rel = "" then [] else [FSOp.mkdirsOp (joinPath outDir rel)]
        match mk with
        | (fs1, some e) => .perr e fs1 ([FSOp.statOp imgPath] ++ mkTr)
        | (fs1, none) =>
          match fs1.copy2 cwd imgPath (joinPath outDir s2) with
          | .error e =>
            .perr e fs1
              ([FSOp.statOp imgPath] ++ mkTr ++ [FSOp.copyOp imgPath (joinPath outDir s2)])
          | .ok fs2 =>
            .pok (.img (some s2)) fs2
              ([FSOp.statOp imgPath] ++ mkTr ++ [FSOp.copyOp imgPath (joinPath outDir s2)])
      else .pok (.img (some s)) fs [FSOp.statOp imgPath]

/-- Result of a full `copy_images` run over the node list. -/
inductive CResult where
  | cok (html : List Node) (fs : FS) (tr : List FSOp)
  | cerr (e : PyError) (fs : FS) (tr : List FSOp)
deriving DecidableEq, Repr

/-- The filesystem state carried by a per-node result. -/
def PResult.stateOf : PResult → FS
  | .pok _ fs _ => fs
  | .perr _ fs _ => fs

/-- Run the image loop over the nodes in document order; the first
exception aborts the run (and hence the serialization). -/
def runNodes (inDir outDir cwd : String) : List Node → FS → CResult
  | [], fs => .cok [] fs []
  | n :: ns, fs =>
    match processNode inDir outDir cwd fs n with
    | .perr e fs1 t1 => .cerr e fs1 t1
    | .pok n' fs1 t1 =>
      match runNodes inDir outDir cwd ns fs1 with
      | .cok ns' fs2 t2 => .cok (n' :: ns') fs2 (t1 ++ t2)
      | .cerr e fs2 t2 => .cerr e fs2 (t1 ++ t2)

/-- The filesystem state carried by a loop result. -/
def CResult.stateOf : CResult → FS
  | .cok _ fs _ => fs
  | .cerr _ fs _ => fs

/-- Result of `copy_images` at the string level. -/
inductive SResult where
  | sok (html : String) (fs : FS) (tr : List FSOp)
  | serr (e : PyError) (fs : FS) (tr : List FSOp)
deriving DecidableEq, Repr

/-- The filesystem state carried by a `copy_images` result. -/
def SResult.stateOf : SResult → FS
  | .sok _ fs _ => fs
  | .serr _ fs _ => fs

/-- `copy_images(html_content, input_file, output_dir, no_images)`
(lines 53-102), parametrized by the third-party HTML parser and
serializer (`BeautifulSoup` / `str`) and by the working directory and
filesystem.  With the skip flag it returns its input string unchanged
before touching the parser or the filesystem. -/
def copy_images (parse : String → List Node) (ser : List Node → String)
    (html_content input_file output_dir : String) (no_images : Bool)
    (cwd : String) (fs : FS) : SResult :=
  if no_images then .sok html_content fs []
  else
    let inDir := dirname (abspath cwd input_file)
    match fs.makedirs cwd output_dir with
    | (fs1, some e) => .serr e fs1 [FSOp.mkdirsOp output_dir]
    | (fs1, none) =>
      match runNodes inDir output_dir cwd (parse html_content) fs1 with
      | .cok html' fs2 t => .sok (ser html') fs2 (FSOp.mkdirsOp output_dir :: t)
      | .cerr e fs2 t => .serr e fs2 (FSOp.mkdirsOp output_dir :: t)

/-! ## Theme templater `generate_html_template` (lines 105-194)

The Python f-string, transcribed literally (doubled braces of the
f-string are single braces in the output; `\x7b`/`\x7d` below). -/

/-- `generate_html_template(html_content, bg_color, text_color,
heading_color, link_color, code_bg, border_color)`. -/
def generate_html_template (html_content bg_color text_color heading_color
    link_color code_bg border_color : String) : String :=
  "\n    <!DOCTYPE html>\n    <html>\n    <head>\n        <meta charset=\"UTF-8\">\n        <style>\n            body \x7b\n                font-family: -apple-system, BlinkMacSystemFont, \"Segoe UI\", Roboto, \"Helvetica Neue\", Arial, sans-serif;\n                line-height: 1.6;\n                max-width: 800px;\n                margin: 0 auto;\n                padding: 20px;\n                "
  ++ "background-color: " ++ bg_color ++ ";"
  ++ "\n                color: " ++ text_color
  ++ ";\n            \x7d\n            h1, h2, h3, h4, h5, h6 \x7b\n                color: "
  ++ heading_color
  ++ ";\n                margin-top: 24px;\n                margin-bottom: 16px;\n                font-weight: 600;\n                line-height: 1.25;\n            \x7d\n            a \x7b\n                color: "
  ++ link_color
  ++ ";\n                text-decoration: none;\n            \x7d\n            a:hover \x7b\n                text-decoration: underline;\n            \x7d\n            code \x7b\n                background-color: "
  ++ code_bg
  ++ ";\n                padding: 0.2em 0.4em;\n                border-radius: 3px;\n                font-family: \"SFMono-Regular\", Consolas, \"Liberation Mono\", Menlo, monospace;\n            \x7d\n            pre \x7b\n                background-color: "
  ++ code_bg
  ++ ";\n                padding: 16px;\n                border-radius: 6px;\n                overflow: auto;\n            \x7d\n            pre code \x7b\n                background-color: transparent;\n                padding: 0;\n            \x7d\n            img \x7b\n                max-width: 100%;\n                height: auto;\n                display: block;\n                margin: 0 auto;\n            \x7d\n            table \x7b\n                border-collapse: collapse;\n                width: 100%;\n                margin-bottom: 16px;\n            \x7d\n            th, td \x7b\n                border: 1px solid "
  ++ border_color
  ++ ";\n                padding: 6px 13px;\n            \x7d\n            th \x7b\n                background-color: "
  ++ code_bg
  ++ ";\n            \x7d\n            blockquote \x7b\n                padding: 0 1em;\n                color: "
  ++ text_color
  ++ ";\n                border-left: 0.25em solid "
  ++ border_color
  ++ ";\n                margin: 0 0 16px 0;\n            \x7d\n        </style>\n    </head>\n    <body>\n        "
  ++ html_content
  ++ "\n    </body>\n    </html>\n    "

/-! ## The orchestrator `main` (lines 244-334) -/

/-- External collaborators of the program, abstract in the model:
the HTML parser and serializer (BeautifulSoup), the Markdown converter
(markdown2), and the PDF renderer (pdfkit / wkhtmltopdf): whether the
binary is installed, whether a render call succeeds, and the bytes it
produces from an HTML text. -/
structure Ext where
  parse : String → List Node
  ser : List Node → String
  md2html : String → String
  wkAvailable : Bool
  renderOk : Bool
  render : String → String

/-- The three subcommands. -/
inductive Command where
  | mdToPdf
  | mdToHtml
  | htmlToPdf
deriving DecidableEq, Repr

/-- Parsed command-line arguments (post `parse_arguments`). -/
structure Args where
  command : Command
  input : String
  output : Option String
  bg_color : String
  text_color : String
  heading_color : String
  link_color : String
  code_bg : String
  border_color : String
  no_images : Bool
  page_size : String
  margin : String
deriving DecidableEq, Repr

/-- Outcome of a `main` run: normal completion, `sys.exit(code)`, or an
uncaught Python exception; each with the final filesystem and the lines
printed to stdout. -/
inductive MainResult where
  | mok (fs : FS) (out : List String)
  | exited (code : Nat) (fs : FS) (out : List String)
  | raised (e : PyError) (fs : FS) (out : List String)
deriving DecidableEq, Repr

/-- The filesystem when the process ends, whatever the outcome. -/
def MainResult.finalFS : MainResult → FS
  | .mok fs _ => fs
  | .exited _ fs _ => fs
  | .raised _ fs _ => fs

/-- Diagnostic printed when the wkhtmltopdf probe raises (lines 254-257). -/
def wkErrLines : List String :=
  [ "Error: wkhtmltopdf is not installed. Please install it first."
  , "On Ubuntu/Debian: sudo apt-get install wkhtmltopdf"
  , "On macOS: brew install wkhtmltopdf"
  , "On Windows: Download from https://wkhtmltopdf.org/downloads.html" ]

/-- Default output file name per subcommand (lines 261-267). -/
def defaultOutput : Command → String
  | .mdToPdf => "output.pdf"
  | .mdToHtml => "output.html"
  | .htmlToPdf => "output.pdf"

/-- `convert_markdown_to_html` (lines 197-220): read the input file,
convert with markdown2, wrap in the themed template. -/
def convert_markdown_to_html (ext : Ext) (fs : FS) (cwd input_file : String)
    (bg text heading link codebg border : String) : Except PyError String :=
  match fs.read? cwd input_file with
  | .error e => .error e
  | .ok markdown_text =>
    .ok (generate_html_template (ext.md2html markdown_text) bg text heading link codebg border)

/-- `convert_html_to_pdf` (lines 223-241): pdfkit reads the HTML file
and renders the PDF to `output_file`; an unavailable or failing
wkhtmltopdf raises `OSError`. -/
def convert_html_to_pdf (ext : Ext) (fs : FS) (cwd html_file output_file : String) :
    Except PyError FS :=
  match fs.read? cwd html_file with
  | .error e => .error e
  | .ok htmlText =>
    if ext.wkAvailable && ext.renderOk then
      .ok (fs.setFile (resolveP cwd output_file) ⟨ext.render htmlText, 0⟩)
    else .error .osError

/-- `main` (lines 244-334): probe wkhtmltopdf by rendering an empty
string to `test.pdf` (the probe file is never cleaned up), resolve the
default output name and the output directory, then run the selected
pipeline.  The PDF-producing branches write `temp.html`, render, and
remove `temp.html` only after a successful render (no try/finally). -/
def main (ext : Ext) (args : Args) (cwd : String) (fs : FS) : MainResult :=
  if ext.wkAvailable then
    let fs := fs.setFile (resolveP cwd "test.pdf") ⟨ext.render "", 0⟩
    let output := match args.output with | some o => o | none => defaultOutput args.command
    let od0 := dirname (abspath cwd output)
    let output_dir := if od0 = "" then "." else od0
    match args.command with
    | .mdToPdf =>
      match convert_markdown_to_html ext fs cwd args.input args.bg_color args.text_color
          args.heading_color args.link_color args.code_bg args.border_color with
      | .error e => .raised e fs []
      | .ok html_content =>
        match copy_images ext.parse ext.ser html_content args.input output_dir
            args.no_images cwd fs with
        | .serr e fs1 _ => .raised e fs1 []
        | .sok html1 fs1 _ =>
          let fs2 := fs1.setFile (resolveP cwd "temp.html") ⟨html1, 0⟩
          match convert_html_to_pdf ext fs2 cwd "temp.html" output with
          | .error e => .raised e fs2 []
          | .ok fs3 => .mok (fs3.remFile (resolveP cwd "temp.html")) []
    | .mdToHtml =>
      match convert_markdown_to_html ext fs cwd args.input args.bg_color args.text_color
          args.heading_color args.link_color args.code_bg args.border_color with
      | .error e => .raised e fs []
      | .ok html_content =>
        match copy_images ext.parse ext.ser html_content args.input output_dir
            args.no_images cwd fs with
        | .serr e fs1 _ => .raised e fs1 []
        | .sok html1 fs1 _ => .mok (fs1.setFile (resolveP cwd output) ⟨html1, 0⟩) []
    | .htmlToPdf =>
      match fs.read? cwd args.input with
      | .error e => .raised e fs []
      | .ok html_content =>
        match copy_images ext.parse ext.ser html_content args.input output_dir
            args.no_images cwd fs with
        | .serr e fs1 _ => .raised e fs1 []
        | .sok html1 fs1 _ =>
          let fs2 := fs1.setFile (resolveP cwd "temp.html") ⟨html1, 0⟩
          match convert_html_to_pdf ext fs2 cwd "temp.html" output with
          | .error e => .raised e fs2 []
          | .ok fs3 => .mok (fs3.remFile (resolveP cwd "temp.html")) []
  else .exited 1 fs wkErrLines

/-! ## Fixtures and notions used by the statements -/

/-- `needle` occurs as a substring of `hay`. -/
def containsStr (hay needle : String) : Prop := ∃ p q, hay = p ++ (needle ++ q)

/-- A concrete collaborator set with wkhtmltopdf missing. -/
def extNoWk : Ext :=
  ⟨fun _ => [], renderHtml, id, false, false, id⟩

/-- Concrete default-style arguments for witnesses. -/
def argsMdToHtml : Args :=
  ⟨.mdToHtml, "doc.md", none, "#0d1117", "#c9d1d9", "#e6f1ff", "#58a6ff", "#161b22",
   "#30363d", false, "A4", "10mm"⟩

/-- Concrete collaborators: wkhtmltopdf installed but the render call
fails (raises `OSError`). -/
def extRenderFail : Ext := ⟨fun _ => [], renderHtml, id, true, false, id⟩

/-- Concrete collaborators: wkhtmltopdf installed and rendering works. -/
def extRenderOk : Ext := ⟨fun _ => [], renderHtml, id, true, true, id⟩

/-- `md-to-pdf doc.md --no-images` with default colors and output. -/
def argsMdToPdfPlain : Args :=
  ⟨.mdToPdf, "doc.md", none, "#0d1117", "#c9d1d9", "#e6f1ff", "#58a6ff", "#161b22",
   "#30363d", true, "A4", "10mm"⟩

/-- A filesystem holding only the input document `/w/doc.md`. -/
def fsDocOnly : FS := ⟨[("/w/doc.md", ⟨"# hi", 1⟩)], ["/", "/w"]⟩

/-! ## General helper lemmas -/

/-- String concatenation is associative. -/
theorem strAssoc (a b c : String) : a ++ b ++ c = a ++ (b ++ c) := by
  cases a with
  | mk da =>
    cases b with
    | mk db =>
      cases c with
      | mk dc =>
        show String.mk (da ++ db ++ dc) = String.mk (da ++ (db ++ dc))
        rw [List.append_assoc]

/-- A needle sitting between two explicit pieces is contained. -/
theorem containsStr_here (p n q : String) : containsStr (p ++ n ++ q) n :=
  ⟨p, q, by rw [strAssoc]⟩

/-- A three-piece needle sitting between two explicit pieces is contained. -/
theorem containsStr_here3 (p a b c q : String) :
    containsStr (p ++ a ++ b ++ c ++ q) (a ++ b ++ c) :=
  ⟨p, q, by simp only [strAssoc]⟩

/-- Containment is stable under appending on the right. -/
theorem containsStr_left (h t n : String) (hc : containsStr h n) : containsStr (h ++ t) n := by
  obtain ⟨p, q, rfl⟩ := hc
  exact ⟨p, q ++ t, by simp only [strAssoc]⟩

/-! ## Lemmas about the path primitives -/

theorem splitChar_ne_nil (c : Char) (l : List Char) : splitChar c l ≠ [] := by
  induction l with
  | nil => simp [splitChar]
  | cons x xs ih =>
    simp only [splitChar]
    split
    · simp
    · cases h : splitChar c xs with
      | nil => exact absurd h ih
      | cons g gs => simp

theorem splitChar_sep_not_mem (c : Char) (l : List Char) :
    ∀ g ∈ splitChar c l, c ∉ g := by
  induction l with
  | nil => simp [splitChar]
  | cons x xs ih =>
    simp only [splitChar]
    split
    · intro g hg
      rcases List.mem_cons.mp hg with h | h
      · simp [h]
      · exact ih g h
    · rename_i hx
      cases h : splitChar c xs with
      | nil => exact absurd h (splitChar_ne_nil c xs)
      | cons g gs =>
        intro g' hg'
        rcases List.mem_cons.mp hg' with h' | h'
        · subst h'
          intro hmem
          rcases List.mem_cons.mp hmem with h'' | h''
          · exact hx h''.symm
          · exact ih g (by rw [h]; exact List.mem_cons_self g gs) h''
        · exact ih g' (by rw [h]; exact List.mem_cons_of_mem g h')

theorem splitChar_append (c : Char) (a b : List Char) :
    splitChar c (a ++ c :: b) = splitChar c a ++ splitChar c b := by
  induction a with
  | nil =>
    simp [splitChar]
  | cons x xs ih =>
    by_cases hx : x = c
    · subst hx
      simp [splitChar, ih]
    · simp only [List.cons_append, splitChar, hx, if_false]
      rw [List.append_eq, ih]
      cases h : splitChar c xs with
      | nil => exact absurd h (splitChar_ne_nil c xs)
      | cons g gs => simp

theorem splitChar_no_sep (c : Char) (l : List Char) (h : c ∉ l) :
    splitChar c l = [l] := by
  induction l with
  | nil => simp [splitChar]
  | cons x xs ih =>
    have hx : ¬ x = c := fun he => h (he ▸ List.mem_cons_self x xs)
    have hxs : c ∉ xs := fun hm => h (List.mem_cons_of_mem x hm)
    simp [splitChar, hx, ih hxs]

theorem splitChar_interSlash (nc : List (List Char)) (h1 : nc ≠ [])
    (h2 : ∀ g ∈ nc, ('/' : Char) ∉ g) : splitChar '/' (interSlash nc) = nc := by
  induction nc with
  | nil => exact absurd rfl h1
  | cons g gs ih =>
    cases gs with
    | nil =>
      simpa [interSlash] using splitChar_no_sep '/' g (h2 g (List.mem_cons_self g []))
    | cons g2 gs2 =>
      have : interSlash (g :: g2 :: gs2) = g ++ '/' :: interSlash (g2 :: gs2) := rfl
      rw [this, splitChar_append,
        splitChar_no_sep '/' g (h2 g (List.mem_cons_self g (g2 :: gs2))),
        ih (by simp) (fun g' hg' => h2 g' (List.mem_cons_of_mem g hg'))]
      rfl

theorem splitChar_replicate_append (k : Nat) (m : List Char) :
    splitChar '/' (List.replicate k '/' ++ m) =
      List.replicate k [] ++ splitChar '/' m := by
  induction k with
  | zero => simp
  | succ n ih => simp [List.replicate_succ, splitChar, ih]

theorem hasPre_of_length_le (p s t : List Char) (h : p.length ≤ s.length) :
    hasPre p (s ++ t) = hasPre p s := by
  induction p generalizing s with
  | nil => simp [hasPre]
  | cons x xs ih =>
    cases s with
    | nil => simp at h
    | cons y ys =>
      simp only [List.cons_append, hasPre]
      rw [List.append_eq, ih ys (by simpa using h)]

theorem hasPre_slash_append (a b : List Char) (h : hasPre ['/'] a = true) :
    hasPre ['/'] (a ++ b) = true := by
  cases a with
  | nil => simp [hasPre] at h
  | cons x xs => simpa [hasPre] using h

theorem interSlash_ne_nil (g : List Char) (gs : List (List Char)) (hg : g ≠ []) :
    interSlash (g :: gs) ≠ [] := by
  cases gs with
  | nil => simpa [interSlash] using hg
  | cons g2 gs2 =>
    have : interSlash (g :: g2 :: gs2) = g ++ '/' :: interSlash (g2 :: gs2) := rfl
    rw [this]
    simp

/-- The components accumulated by the `normpath` filter are nonempty and
slash-free whenever the inputs are. -/
theorem npFold_inv (k : Nat) (comps : List (List Char)) (acc : List (List Char))
    (hacc : ∀ g ∈ acc, g ≠ [] ∧ ('/' : Char) ∉ g)
    (hcomps : ∀ g ∈ comps, ('/' : Char) ∉ g) :
    ∀ g ∈ comps.foldl (npFold k) acc, g ≠ [] ∧ ('/' : Char) ∉ g := by
  induction comps generalizing acc with
  | nil => simpa using hacc
  | cons c cs ih =>
    have hc : ('/' : Char) ∉ c := hcomps c (List.mem_cons_self c cs)
    have hcs : ∀ g ∈ cs, ('/' : Char) ∉ g := fun g hg => hcomps g (List.mem_cons_of_mem c hg)
    refine ih (npFold k acc c) ?_ hcs
    intro g hg
    unfold npFold at hg
    split at hg
    · exact hacc g hg
    · split at hg
      · rcases List.mem_append.mp hg with h | h
        · exact hacc g h
        · rename_i hne _
          have hgc : g = c := List.mem_singleton.mp h
          subst hgc
          exact ⟨fun he => hne (Or.inl he), hc⟩
      · split at hg
        · exact hacc g (List.dropLast_subset _ hg)
        · exact hacc g hg

/-- Shape of `normpath` when the component filter is nonempty. -/
theorem normpathData_shape (l : List Char) (hl : l ≠ [])
    (hN : (splitChar '/' l).foldl (npFold (slashCount l)) [] ≠ []) :
    normpathData l =
      List.replicate (slashCount l) '/' ++
        interSlash ((splitChar '/' l).foldl (npFold (slashCount l)) []) := by
  unfold normpathData
  rw [if_neg hl]
  have hmem := npFold_inv (slashCount l) (splitChar '/' l) []
    (by simp) (splitChar_sep_not_mem '/' l)
  cases hres : (splitChar '/' l).foldl (npFold (slashCount l)) [] with
  | nil => exact absurd hres hN
  | cons g gs =>
    have hg : g ≠ [] := (hmem g (by rw [hres]; exact List.mem_cons_self g gs)).1
    have : List.replicate (slashCount l) '/' ++ interSlash (g :: gs) ≠ [] := by
      intro he
      rcases List.append_eq_nil.mp he with ⟨-, h2⟩
      exact interSlash_ne_nil g gs hg h2
    simp only [hres]
    rw [if_neg this]

/-- Shape of `normpath` when the component filter is empty. -/
theorem normpathData_shape_nil (l : List Char) (hl : l ≠ [])
    (hN : (splitChar '/' l).foldl (npFold (slashCount l)) [] = []) :
    normpathData l =
      (if slashCount l = 0 then ['.'] else List.replicate (slashCount l) '/') := by
  unfold normpathData
  rw [if_neg hl]
  simp only [hN, interSlash, List.append_nil]
  by_cases hk : slashCount l = 0
  · simp [hk]
  · rw [if_neg (by simp [List.replicate_eq_nil_iff, hk]), if_neg hk]

theorem slashCount_pos (l : List Char) (h : hasPre ['/'] l = true) :
    1 ≤ slashCount l := by
  unfold slashCount
  split
  · omega
  · split
    · omega
    · simp [h]

theorem slashCount_eq_zero (l : List Char) (h : hasPre ['/'] l = false) :
    slashCount l = 0 := by
  have h3 : hasPre ['/', '/', '/'] l = false := by
    cases l with
    | nil => rfl
    | cons x xs =>
      simp only [hasPre, Bool.and_eq_false_iff] at h ⊢
      rcases h with h | h
      · exact Or.inl h
      · simp at h
  have h2 : hasPre ['/', '/'] l = false := by
    cases l with
    | nil => rfl
    | cons x xs =>
      simp only [hasPre, Bool.and_eq_false_iff] at h ⊢
      rcases h with h | h
      · exact Or.inl h
      · simp at h
  unfold slashCount
  rw [h3, h2, h]
  rfl

/-- The slash prefix count of a path whose residue after a prefix starts
with a non-slash character does not depend on the residue. -/
theorem slashCount_append_name (c : List Char) (x y : Char) (xs ys : List Char)
    (hx : ¬ x = '/') (hy : ¬ y = '/') :
    slashCount (c ++ x :: xs) = slashCount (c ++ y :: ys) := by
  match c with
  | [] => simp [slashCount, hasPre, hx, hy, Ne.symm hx, Ne.symm hy]
  | [c1] =>
    simp [slashCount, hasPre, hx, hy, Ne.symm hx, Ne.symm hy]
  | [c1, c2] =>
    simp [slashCount, hasPre, hx, hy, Ne.symm hx, Ne.symm hy]
  | c1 :: c2 :: c3 :: rest =>
    have e1 : ∀ (z : Char) (zs : List Char),
        (c1 :: c2 :: c3 :: rest) ++ z :: zs = (c1 :: c2 :: c3 :: (rest ++ z :: zs)) := by
      intro z zs; rfl
    unfold slashCount
    rw [e1 x xs, e1 y ys]
    have hlen : ∀ (p : List Char), p.length ≤ 3 →
        hasPre p (c1 :: c2 :: c3 :: (rest ++ x :: xs)) =
          hasPre p (c1 :: c2 :: c3 :: (rest ++ y :: ys)) := by
      intro p hp
      have ex : c1 :: c2 :: c3 :: (rest ++ x :: xs) = (c1 :: c2 :: c3 :: rest) ++ x :: xs := rfl
      have ey : c1 :: c2 :: c3 :: (rest ++ y :: ys) = (c1 :: c2 :: c3 :: rest) ++ y :: ys := rfl
      rw [ex, ey, hasPre_of_length_le p _ _ (by simp; omega),
        hasPre_of_length_le p _ _ (by simp; omega)]
    rw [hlen ['/', '/', '/'] (by simp), hlen ['/', '/'] (by simp), hlen ['/'] (by simp)]

theorem isAbs_append (a b : List Char) (h : hasPre ['/'] a = true) :
    hasPre ['/'] (a ++ b) = true := hasPre_slash_append a b h

/-- `os.path.join` of an absolute base is absolute. -/
theorem joinPath_abs (a b : String) (h : isAbs a = true) :
    isAbs (joinPath a b) = true := by
  unfold joinPath joinPathData
  unfold isAbs at h ⊢
  split
  · assumption
  · split
    · rename_i hcase
      rcases hcase with hnil | _
      · rw [hnil] at h; simp [hasPre] at h
      · exact hasPre_slash_append a.data b.data h
    · exact hasPre_slash_append a.data ('/' :: b.data) h

/-- `normpath` of an absolute path is absolute. -/
theorem normpath_abs (p : String) (h : isAbs p = true) :
    isAbs (normpath p) = true := by
  unfold normpath isAbs at *
  have hl : p.data ≠ [] := by
    intro he; rw [he] at h; simp [hasPre] at h
  have hk : 1 ≤ slashCount p.data := slashCount_pos p.data h
  cases hN : (splitChar '/' p.data).foldl (npFold (slashCount p.data)) [] with
  | nil =>
    rw [normpathData_shape_nil p.data hl hN, if_neg (by omega)]
    show hasPre ['/'] (List.replicate (slashCount p.data) '/') = true
    cases hsc : slashCount p.data with
    | zero => omega
    | succ n => simp [List.replicate_succ, hasPre]
  | cons g gs =>
    rw [normpathData_shape p.data hl (by rw [hN]; simp)]
    show hasPre ['/'] (List.replicate (slashCount p.data) '/' ++ _) = true
    apply hasPre_slash_append
    cases hsc : slashCount p.data with
    | zero => omega
    | succ n => simp [List.replicate_succ, hasPre]

/-- Resolution against an absolute working directory yields an absolute
path. -/
theorem resolveP_abs (cwd p : String) (h : isAbs cwd = true) :
    isAbs (resolveP cwd p) = true := by
  unfold resolveP abspath
  split
  · exact normpath_abs p (by assumption)
  · exact normpath_abs _ (joinPath_abs cwd p h)

/-! ## Lemmas about the filesystem operations -/

theorem mkChain_files (fs : FS) (qs : List String) :
    (FS.mkChain fs qs).1.files = fs.files := by
  induction qs generalizing fs with
  | nil => rfl
  | cons q qs ih =>
    unfold FS.mkChain
    split
    · rfl
    · split
      · exact ih fs
      · exact ih _

theorem mkChain_dirs_mono (fs : FS) (qs : List String) (r : String)
    (h : fs.dirs.contains r = true) :
    (FS.mkChain fs qs).1.dirs.contains r = true := by
  induction qs generalizing fs with
  | nil => exact h
  | cons q qs ih =>
    unfold FS.mkChain
    split
    · exact h
    · split
      · exact ih fs h
      · exact ih ⟨fs.files, q :: fs.dirs⟩ (by simpa using Or.inr (by simpa using h))

theorem hasDir_of_contains (fs : FS) (p : String) (h : fs.dirs.contains p = true) :
    fs.hasDir p = true := by
  unfold FS.hasDir
  rw [h, Bool.true_or]

theorem mkChain_mem_ok (fs fs' : FS) (qs : List String)
    (h : FS.mkChain fs qs = (fs', none)) :
    ∀ q ∈ qs, fs'.hasDir q = true := by
  induction qs generalizing fs with
  | nil => simp
  | cons q qs ih =>
    intro r hr
    unfold FS.mkChain at h
    split at h
    · simp at h
    · rcases List.mem_cons.mp hr with hq | hq
      · subst hq
        split at h
        · rename_i hdir
          unfold FS.hasDir at hdir
          rcases Bool.or_eq_true_iff.mp hdir with hc | hroot
          · have hmono := mkChain_dirs_mono fs qs r hc
            rw [h] at hmono
            exact hasDir_of_contains fs' r hmono
          · unfold FS.hasDir
            simp only [hroot, Bool.or_true]
        · have hself : (⟨fs.files, r :: fs.dirs⟩ : FS).dirs.contains r = true := by simp
          have hmono := mkChain_dirs_mono ⟨fs.files, r :: fs.dirs⟩ qs r hself
          rw [h] at hmono
          exact hasDir_of_contains fs' r hmono
      · split at h
        · exact ih fs h r hq
        · exact ih _ h r hq

/-- Every member of a `chainFrom` run built from appending one more
component is in the chain; the full path is a member of its own chain. -/
theorem chainFrom_mem_last (cs : List (List Char)) (base : String) (h : cs ≠ []) :
    (⟨base.data ++ '/' :: interSlash cs⟩ : String) ∈ chainFrom base cs := by
  induction cs generalizing base with
  | nil => exact absurd rfl h
  | cons c cs ih =>
    cases cs with
    | nil =>
      have heq : base ++ "/" ++ (⟨c⟩ : String) = ⟨base.data ++ '/' :: interSlash [c]⟩ := by
        show String.mk ((base.data ++ ['/']) ++ c) = _
        simp [interSlash]
      simp only [chainFrom]
      exact List.mem_singleton.mpr heq.symm
    | cons c2 cs2 =>
      have hstep : interSlash (c :: c2 :: cs2) = c ++ '/' :: interSlash (c2 :: cs2) := rfl
      unfold chainFrom
      apply List.mem_cons_of_mem
      have hb : (base ++ "/" ++ (⟨c⟩ : String)).data = base.data ++ '/' :: c := by
        show (base.data ++ ['/']) ++ c = _
        simp
      have := ih (base ++ "/" ++ ⟨c⟩) (by simp)
      rw [hb] at this
      have heq : base.data ++ '/' :: c ++ '/' :: interSlash (c2 :: cs2) =
          base.data ++ '/' :: interSlash (c :: c2 :: cs2) := by
        rw [hstep]
        simp
      rw [heq] at this
      exact this

theorem slashCount_le (l : List Char) : slashCount l ≤ 2 := by
  unfold slashCount
  split
  · omega
  · split
    · omega
    · split <;> omega

theorem slashCount_replicate_append (k : Nat) (x : Char) (m : List Char)
    (h1 : 1 ≤ k) (h2 : k ≤ 2) (hx : ¬ x = '/') :
    slashCount (List.replicate k '/' ++ x :: m) = k := by
  match k, h1, h2 with
  | 1, _, _ => simp [slashCount, hasPre, List.replicate_succ, hx, Ne.symm hx]
  | 2, _, _ => simp [slashCount, hasPre, List.replicate_succ, hx, Ne.symm hx]

/-- A `normpath` output that is absolute is either an all-slash root or
a member of its own ancestor chain. -/
theorem normpath_chain_covers (l : List Char)
    (habs : hasPre ['/'] (normpathData l) = true) :
    ((normpathData l).all (fun c => c = '/') = true)
    ∨ (⟨normpathData l⟩ : String) ∈ chainPaths ⟨normpathData l⟩ := by
  by_cases hl : l = []
  · rw [hl] at habs
    simp [normpathData, hasPre] at habs
  have hmem := npFold_inv (slashCount l) (splitChar '/' l) []
    (by simp) (splitChar_sep_not_mem '/' l)
  cases hN : (splitChar '/' l).foldl (npFold (slashCount l)) [] with
  | nil =>
    left
    rw [normpathData_shape_nil l hl hN] at habs ⊢
    by_cases hk : slashCount l = 0
    · rw [if_pos hk] at habs
      simp [hasPre] at habs
    · rw [if_neg hk]
      simp
  | cons g gs =>
    right
    have hgmem : ∀ g' ∈ g :: gs, g' ≠ [] ∧ ('/' : Char) ∉ g' := by
      intro g' hg'
      exact hmem g' (by rw [hN]; exact hg')
    have hg : g ≠ [] := (hgmem g (List.mem_cons_self g gs)).1
    have hgslash : ('/' : Char) ∉ g := (hgmem g (List.mem_cons_self g gs)).2
    rw [normpathData_shape l hl (by rw [hN]; simp), hN] at habs ⊢
    set k := slashCount l with hkdef
    -- the head of the first component is not a slash
    obtain ⟨x, g', rfl⟩ : ∃ x g', g = x :: g' := by
      cases g with
      | nil => exact absurd rfl hg
      | cons x g' => exact ⟨x, g', rfl⟩
    have hx : ¬ x = '/' := fun he => hgslash (he ▸ List.mem_cons_self x g')
    have hinter : ∃ m, interSlash ((x :: g') :: gs) = x :: m := by
      cases gs with
      | nil => exact ⟨g', rfl⟩
      | cons g2 gs2 => exact ⟨g' ++ '/' :: interSlash (g2 :: gs2), rfl⟩
    obtain ⟨m, hm⟩ := hinter
    have hk1 : 1 ≤ k := by
      by_contra hk0
      have hk0' : k = 0 := by omega
      rw [hk0', hm] at habs
      simp [hasPre, Ne.symm hx] at habs
    -- slashCount of the normalized output is k again
    have hsc : slashCount (List.replicate k '/' ++ interSlash ((x :: g') :: gs)) = k := by
      rw [hm]
      exact slashCount_replicate_append k x m hk1 (hkdef ▸ slashCount_le l) hx
    unfold chainPaths
    show (⟨List.replicate k '/' ++ interSlash ((x :: g') :: gs)⟩ : String) ∈
      chainFrom ⟨List.replicate
        (slashCount (List.replicate k '/' ++ interSlash ((x :: g') :: gs)) - 1) '/'⟩
        ((splitChar '/' (List.replicate k '/' ++ interSlash ((x :: g') :: gs))).filter
          (fun c => c ≠ []))
    rw [hsc, splitChar_replicate_append,
      splitChar_interSlash ((x :: g') :: gs) (by simp) (fun g' hg' => (hgmem g' hg').2)]
    have hfilter : (List.replicate k ([] : List Char) ++ (x :: g') :: gs).filter
        (fun c => c ≠ []) = (x :: g') :: gs := by
      rw [List.filter_append]
      have h1 : (List.replicate k ([] : List Char)).filter (fun c => c ≠ []) = [] := by
        induction k with
        | zero => rfl
        | succ n ih => simp [List.replicate_succ, List.filter]
      have h2 : ((x :: g') :: gs).filter (fun c => c ≠ []) = (x :: g') :: gs :=
        List.filter_eq_self.mpr (fun a ha => by simpa using (hgmem a ha).1)
      rw [h1, h2, List.nil_append]
    rw [hfilter]
    have := chainFrom_mem_last ((x :: g') :: gs) ⟨List.replicate (k - 1) '/'⟩ (by simp)
    have heq : (⟨List.replicate (k - 1) '/'⟩ : String).data ++
        '/' :: interSlash ((x :: g') :: gs) =
        List.replicate k '/' ++ interSlash ((x :: g') :: gs) := by
      show List.replicate (k - 1) '/' ++ _ = _
      have : k = (k - 1) + 1 := by omega
      rw [this, List.replicate_succ']
      simp
    rw [heq] at this
    exact this

/-- `resolveP` is always `normpath` of something. -/
theorem resolveP_eq_normpath (cwd p : String) :
    ∃ y, resolveP cwd p = normpath y := by
  unfold resolveP abspath
  split
  · exact ⟨p, rfl⟩
  · exact ⟨joinPath cwd p, rfl⟩

/-- After a successful `makedirs` the target directory exists. -/
theorem makedirs_ok_hasDir (fs fs' : FS) (cwd p : String)
    (habs : isAbs (resolveP cwd p) = true)
    (h : fs.makedirs cwd p = (fs', none)) :
    fs'.hasDir (resolveP cwd p) = true := by
  obtain ⟨y, hy⟩ := resolveP_eq_normpath cwd p
  unfold FS.makedirs at h
  rw [hy] at habs h ⊢
  unfold isAbs normpath at habs
  rcases normpath_chain_covers y.data habs with hroot | hmem
  · unfold FS.hasDir
    have hne : ¬ (normpath y).data = [] := by
      intro he
      rw [show (normpath y).data = normpathData y.data from rfl] at he
      rw [he] at habs
      simp [hasPre] at habs
    rw [show (normpath y).data = normpathData y.data from rfl] at hne
    have : (decide ¬ (normpath y).data = [] &&
        (normpath y).data.all (fun c => c = '/')) = true := by
      show (decide ¬ normpathData y.data = [] &&
        (normpathData y.data).all (fun c => c = '/')) = true
      simp [hne, hroot]
    rw [this, Bool.or_true]
  · exact mkChain_mem_ok fs fs' _ h (normpath y) hmem

theorem hasPre_exists (p s : List Char) (h : hasPre p s = true) :
    ∃ t, s = p ++ t := by
  induction p generalizing s with
  | nil => exact ⟨s, rfl⟩
  | cons x xs ih =>
    cases s with
    | nil => simp [hasPre] at h
    | cons y ys =>
      simp only [hasPre, Bool.and_eq_true, decide_eq_true_eq] at h
      obtain ⟨t, ht⟩ := ih ys h.2
      exact ⟨t, by simp [h.1, ht]⟩

/-- `os.path.join` with an absolute second argument returns it. -/
theorem joinPath_abs_right (a b : String) (h : isAbs b = true) :
    joinPath a b = b := by
  unfold joinPath joinPathData
  unfold isAbs at h
  rw [if_pos h]

theorem length_takeWhile_append_le (p : Char → Bool) (xs : List Char) (c : Char)
    (hc : p c = false) : (List.takeWhile p (xs ++ [c])).length ≤ xs.length := by
  induction xs with
  | nil => simp [List.takeWhile, hc]
  | cons x xs ih =>
    by_cases hx : p x
    · simp only [List.cons_append, List.takeWhile_cons, hx]
      simpa using ih
    · simp [List.takeWhile_cons, hx]

/-- A `takeWhile` run over a list containing a failing element is
strictly shorter than the list. -/
theorem takeWhile_length_lt (p : Char → Bool) (l : List Char)
    (hx : ∃ x ∈ l, p x = false) : (l.takeWhile p).length < l.length := by
  induction l with
  | nil => simp at hx
  | cons y ys ih =>
    by_cases hy : p y = true
    · obtain ⟨x, hmem, hpx⟩ := hx
      have hxys : x ∈ ys := by
        rcases List.mem_cons.mp hmem with h | h
        · rw [h] at hpx; rw [hpx] at hy; simp at hy
        · exact h
      simp only [List.takeWhile_cons, hy, List.length_cons, if_pos]
      simpa using ih ⟨x, hxys, hpx⟩
    · simp [List.takeWhile_cons, Bool.eq_false_iff.mpr hy]

/-- The dirname of a path containing a slash is nonempty. -/
theorem dirnameData_ne_nil (l : List Char) (hmem : ('/' : Char) ∈ l) :
    ¬ dirnameData l = [] := by
  have hl : l ≠ [] := fun he => by rw [he] at hmem; simp at hmem
  have hlt : (List.takeWhile (fun c => decide (c ≠ '/')) l.reverse).length < l.length := by
    have := takeWhile_length_lt (fun c => decide (c ≠ '/')) l.reverse
      ⟨'/', List.mem_reverse.mpr hmem, by simp⟩
    simpa using this
  intro hdata
  unfold dirnameData at hdata
  dsimp only at hdata
  split at hdata
  · rename_i hcond
    rw [List.reverse_eq_nil_iff] at hdata
    have hall := List.dropWhile_eq_nil_iff.mp hdata
    apply hcond.2
    rw [List.all_eq_true]
    intro a ha
    simpa using hall a (List.mem_reverse.mpr ha)
  · rename_i hcond
    rcases List.take_eq_nil_iff.mp hdata with h0 | h0
    · omega
    · exact hl h0

/-- The dirname of an absolute path is nonempty. -/
theorem dirname_abs_ne (p : String) (h : isAbs p = true) : ¬ dirname p = "" := by
  unfold isAbs at h
  obtain ⟨t, ht⟩ := hasPre_exists ['/'] p.data h
  intro hcon
  have hdata : dirnameData p.data = [] := congrArg String.data hcon
  exact dirnameData_ne_nil p.data (by rw [ht]; simp) hdata

/-- A Boolean condition known false selects the else branch. -/
theorem ite_cond_false {α : Sort _} (b : Bool) (hb : b = false) (a c : α) :
    (if b = true then a else c) = c := by
  rw [hb]
  simp

/-! ## Claim C1: parent-directory (`../`) references -/

/-- C1 counterexample: for the single reference `../img/pic.png` in
`/docs/sub/doc.md` with output directory `/out` and the file present at
`/docs/img/pic.png`, `copy_images` does not copy anything under the
output directory and does not rewrite the attribute: the normalized
source is the absolute path `/docs/img/pic.png`, the copy destination
collapses to that same path, and the run aborts with `SameFileError`,
leaving no file under `/out`. -/
theorem c1_dotdot_counterexample :
    copy_images (fun _ => [Node.img (some "../img/pic.png")]) renderHtml
        "<html/>" "/docs/sub/doc.md" "/out" false "/w"
        ⟨[("/docs/img/pic.png", ⟨"PNG", 5⟩)], ["/", "/docs", "/docs/img", "/docs/sub", "/out"]⟩ =
      .serr .sameFile
        ⟨[("/docs/img/pic.png", ⟨"PNG", 5⟩)], ["/", "/docs", "/docs/img", "/docs/sub", "/out"]⟩
        [FSOp.mkdirsOp "/out", FSOp.statOp "/docs/img/pic.png", FSOp.mkdirsOp "/docs/img",
         FSOp.copyOp "/docs/img/pic.png" "/docs/img/pic.png"]
    ∧ (([("/docs/img/pic.png", (⟨"PNG", 5⟩ : FileData))].all
        (fun kv => !(strHasPre kv.1 "/out"))) = true) := by
  constructor
  · decide
  · decide

/-- C1 (amended): for every image reference whose source begins with
`../` and whose resolved file exists (a regular file, so the resolved
path is not a directory), `copy_images` normalizes the source against
the source document's directory to an ABSOLUTE path (not a relative
one); joining the output directory with that absolute path yields the
absolute path itself, so the directory creation re-creates the source
file's own parent directory and the copy destination equals the source
file; the copy therefore raises `shutil.SameFileError`: no file is
placed under the output directory and the source attribute is not
rewritten (the exception aborts the run). -/
theorem c1_dotdot_normalizes_to_abs_and_raises (inDir outDir cwd : String)
    (fs fs' : FS) (s : String)
    (habs : isAbs inDir = true)
    (hdd : strHasPre s "../" = true)
    (hex : fs.existsP cwd (joinPath inDir (srcAdjust inDir s)) = true)
    (hmk : fs.makedirs cwd (joinPath outDir (dirname (srcAdjust inDir s))) = (fs', none))
    (hnd : fs'.hasDir (resolveP cwd (joinPath outDir (srcAdjust inDir s))) = false) :
    srcAdjust inDir s = normpath (joinPath inDir s)
    ∧ isAbs (srcAdjust inDir s) = true
    ∧ joinPath outDir (srcAdjust inDir s) = srcAdjust inDir s
    ∧ processNode inDir outDir cwd fs (.img (some s)) =
        .perr .sameFile fs'
          ([FSOp.statOp (joinPath inDir (srcAdjust inDir s))]
            ++ [FSOp.mkdirsOp (joinPath outDir (dirname (srcAdjust inDir s)))]
            ++ [FSOp.copyOp (joinPath inDir (srcAdjust inDir s))
                 (joinPath outDir (srcAdjust inDir s))]) := by
  obtain ⟨t, ht⟩ := hasPre_exists ['.', '.', '/'] s.data hdd
  have hne : ¬ s = "" := by
    intro he
    rw [he] at ht
    simp at ht
  have hdot : strHasPre s "./" = false := by
    unfold strHasPre
    rw [show ("./" : String).data = ['.', '/'] from rfl, ht]
    simp [hasPre]
  have hadj : srcAdjust inDir s = normpath (joinPath inDir s) := by
    unfold srcAdjust
    rw [if_neg (by simp [hdot]), if_pos hdd]
  have habs2 : isAbs (srcAdjust inDir s) = true := by
    rw [hadj]
    exact normpath_abs _ (joinPath_abs inDir s habs)
  have hjoin_in : joinPath inDir (srcAdjust inDir s) = srcAdjust inDir s :=
    joinPath_abs_right inDir _ habs2
  have hjoin_out : joinPath outDir (srcAdjust inDir s) = srcAdjust inDir s :=
    joinPath_abs_right outDir _ habs2
  have hrel : ¬ dirname (srcAdjust inDir s) = "" := dirname_abs_ne _ habs2
  refine ⟨hadj, habs2, hjoin_out, ?_⟩
  unfold processNode
  dsimp only
  rw [if_neg hne, if_pos hex]
  simp only [if_neg hrel]
  rw [hmk]
  dsimp only
  have hcopy : fs'.copy2 cwd (joinPath inDir (srcAdjust inDir s))
      (joinPath outDir (srcAdjust inDir s)) = .error .sameFile := by
    unfold FS.copy2
    dsimp only
    rw [ite_cond_false _ hnd, hjoin_in, hjoin_out, if_pos rfl]
  rw [hcopy]

/-- Witness for the amended C1 at the counterexample's concrete input. -/
theorem c1_dotdot_normalizes_to_abs_and_raises_witness :
    srcAdjust "/docs/sub" "../img/pic.png" = normpath (joinPath "/docs/sub" "../img/pic.png")
    ∧ isAbs (srcAdjust "/docs/sub" "../img/pic.png") = true
    ∧ joinPath "/out" (srcAdjust "/docs/sub" "../img/pic.png") =
        srcAdjust "/docs/sub" "../img/pic.png"
    ∧ processNode "/docs/sub" "/out" "/w"
        ⟨[("/docs/img/pic.png", ⟨"PNG", 5⟩)], ["/", "/docs", "/docs/img", "/docs/sub", "/out"]⟩
        (.img (some "../img/pic.png")) =
        .perr .sameFile
          ⟨[("/docs/img/pic.png", ⟨"PNG", 5⟩)], ["/", "/docs", "/docs/img", "/docs/sub", "/out"]⟩
          ([FSOp.statOp (joinPath "/docs/sub" (srcAdjust "/docs/sub" "../img/pic.png"))]
            ++ [FSOp.mkdirsOp (joinPath "/out"
                 (dirname (srcAdjust "/docs/sub" "../img/pic.png")))]
            ++ [FSOp.copyOp (joinPath "/docs/sub" (srcAdjust "/docs/sub" "../img/pic.png"))
                 (joinPath "/out" (srcAdjust "/docs/sub" "../img/pic.png"))]) :=
  c1_dotdot_normalizes_to_abs_and_raises "/docs/sub" "/out" "/w"
    ⟨[("/docs/img/pic.png", ⟨"PNG", 5⟩)], ["/", "/docs", "/docs/img", "/docs/sub", "/out"]⟩
    ⟨[("/docs/img/pic.png", ⟨"PNG", 5⟩)], ["/", "/docs", "/docs/img", "/docs/sub", "/out"]⟩
    "../img/pic.png" (by decide) (by decide) (by decide) (by decide) (by decide)

/-! ## Distinctness of plain file names under path resolution -/

theorem interSlash_cons_cons (g : List Char) (t : List (List Char)) (ht : t ≠ []) :
    interSlash (g :: t) = g ++ '/' :: interSlash t := by
  cases t with
  | nil => exact absurd rfl ht
  | cons h2 t2 => rfl

theorem interSlash_end_ne (acc : List (List Char)) (a : List Char) (ha : a ≠ []) :
    interSlash (acc ++ [a]) ≠ [] := by
  induction acc with
  | nil => simpa [interSlash] using ha
  | cons g t ih =>
    rw [List.cons_append, interSlash_cons_cons g (t ++ [a]) (by simp)]
    simp

theorem interSlash_last_inj (acc : List (List Char)) (x y : List Char)
    (h : interSlash (acc ++ [x]) = interSlash (acc ++ [y])) : x = y := by
  induction acc with
  | nil => simpa [interSlash] using h
  | cons g t ih =>
    rw [List.cons_append, List.cons_append,
      interSlash_cons_cons g (t ++ [x]) (by simp),
      interSlash_cons_cons g (t ++ [y]) (by simp)] at h
    exact ih (by simpa using List.append_cancel_left h)

theorem hasPre_slash_name_false (a : List Char) (hne : a ≠ [])
    (hsf : ∀ x ∈ a, ¬ x = '/') : hasPre ['/'] a = false := by
  cases a with
  | nil => exact absurd rfl hne
  | cons x xs =>
    have hx : ¬ ('/' : Char) = x := fun h => hsf x (List.mem_cons_self x xs) h.symm
    simp [hasPre, hx]

theorem joinPathData_name_ne_nil (c a : List Char) (hne : a ≠ [])
    (hsf : ∀ x ∈ a, ¬ x = '/') : joinPathData c a ≠ [] := by
  unfold joinPathData
  rw [hasPre_slash_name_false a hne hsf]
  simp only [Bool.false_eq_true, if_false]
  split
  · simp [hne]
  · simp

theorem splitChar_join_name (c a : List Char) (hne : a ≠ [])
    (hsf : ∀ x ∈ a, ¬ x = '/') :
    splitChar '/' (joinPathData c a) =
      (if c = [] then []
       else if c.getLast? = some '/' then splitChar '/' c.dropLast
       else splitChar '/' c) ++ [a] := by
  unfold joinPathData
  rw [hasPre_slash_name_false a hne hsf]
  simp only [Bool.false_eq_true, if_false]
  split
  · rename_i hcase
    by_cases hnil : c = []
    · subst hnil
      simpa using splitChar_no_sep '/' a (fun hm => hsf '/' hm rfl)
    · have hlast : c.getLast? = some '/' := by
        rcases hcase with h | h
        · exact absurd h hnil
        · exact h
      rw [if_neg hnil, if_pos hlast]
      have hg : c.getLast hnil = '/' := by
        have hsome := List.getLast?_eq_getLast c hnil
        rw [hsome] at hlast
        exact Option.some.inj hlast
      have hc : c = c.dropLast ++ ['/'] := by
        conv_lhs => rw [← List.dropLast_append_getLast hnil]
        rw [hg]
      calc splitChar '/' (c ++ a)
          = splitChar '/' (c.dropLast ++ '/' :: a) := by
            conv_lhs => rw [hc]
            simp
        _ = splitChar '/' c.dropLast ++ splitChar '/' a := splitChar_append _ _ _
        _ = splitChar '/' c.dropLast ++ [a] := by
            rw [splitChar_no_sep '/' a (fun hm => hsf '/' hm rfl)]
  · rename_i hcase
    push_neg at hcase
    rw [if_neg hcase.1, if_neg hcase.2]
    rw [splitChar_append '/' c a,
      splitChar_no_sep '/' a (fun hm => hsf '/' hm rfl)]

theorem slashCount_join_name (c a b : List Char)
    (hane : a ≠ []) (hasf : ∀ x ∈ a, ¬ x = '/')
    (hbne : b ≠ []) (hbsf : ∀ x ∈ b, ¬ x = '/') :
    slashCount (joinPathData c a) = slashCount (joinPathData c b) := by
  obtain ⟨x, xs, rfl⟩ : ∃ x xs, a = x :: xs := by
    cases a with
    | nil => exact absurd rfl hane
    | cons x xs => exact ⟨x, xs, rfl⟩
  obtain ⟨y, ys, rfl⟩ : ∃ y ys, b = y :: ys := by
    cases b with
    | nil => exact absurd rfl hbne
    | cons y ys => exact ⟨y, ys, rfl⟩
  have hx : ¬ x = '/' := hasf x (List.mem_cons_self x xs)
  have hy : ¬ y = '/' := hbsf y (List.mem_cons_self y ys)
  unfold joinPathData
  rw [hasPre_slash_name_false _ hane hasf, hasPre_slash_name_false _ hbne hbsf]
  simp only [Bool.false_eq_true, if_false]
  split
  · exact slashCount_append_name c x y xs ys hx hy
  · have ea : c ++ '/' :: x :: xs = (c ++ ['/']) ++ x :: xs := by simp
    have eb : c ++ '/' :: y :: ys = (c ++ ['/']) ++ y :: ys := by simp
    rw [ea, eb]
    exact slashCount_append_name (c ++ ['/']) x y xs ys hx hy

theorem npFold_final (k : Nat) (G : List (List Char)) (a : List Char)
    (ha : a ≠ []) (hdot : a ≠ ['.']) (hdd : a ≠ ['.', '.']) :
    (G ++ [a]).foldl (npFold k) [] = (G.foldl (npFold k) []) ++ [a] := by
  rw [List.foldl_append]
  show npFold k (G.foldl (npFold k) []) a = _
  unfold npFold
  rw [if_neg (by simp [ha, hdot]), if_pos (Or.inl hdd)]

/-- Resolution of two distinct plain names against the same base yields
distinct normalized paths. -/
theorem normpath_join_name_inj (c a b : List Char)
    (hane : a ≠ []) (hasf : ∀ x ∈ a, ¬ x = '/') (hadot : a ≠ ['.']) (hadd : a ≠ ['.', '.'])
    (hbne : b ≠ []) (hbsf : ∀ x ∈ b, ¬ x = '/') (hbdot : b ≠ ['.']) (hbdd : b ≠ ['.', '.'])
    (heq : normpathData (joinPathData c a) = normpathData (joinPathData c b)) : a = b := by
  have hK := slashCount_join_name c a b hane hasf hbne hbsf
  have hsa := splitChar_join_name c a hane hasf
  have hsb := splitChar_join_name c b hbne hbsf
  have hNa : (splitChar '/' (joinPathData c a)).foldl
      (npFold (slashCount (joinPathData c a))) [] ≠ [] := by
    rw [hsa, npFold_final _ _ a hane hadot hadd]
    simp
  have hNb : (splitChar '/' (joinPathData c b)).foldl
      (npFold (slashCount (joinPathData c b))) [] ≠ [] := by
    rw [hsb, npFold_final _ _ b hbne hbdot hbdd]
    simp
  rw [normpathData_shape (joinPathData c a) (joinPathData_name_ne_nil c a hane hasf) hNa,
    normpathData_shape (joinPathData c b) (joinPathData_name_ne_nil c b hbne hbsf) hNb] at heq
  rw [hsa, hsb, npFold_final _ _ a hane hadot hadd, npFold_final _ _ b hbne hbdot hbdd,
    hK] at heq
  have := List.append_cancel_left heq
  exact interSlash_last_inj _ a b this

/-- The resolved paths of `temp.html` and `test.pdf` differ in every
working directory. -/
theorem resolveP_temp_ne_test (cwd : String) :
    ¬ resolveP cwd "temp.html" = resolveP cwd "test.pdf" := by
  intro h
  have e1 : resolveP cwd "temp.html" =
      ⟨normpathData (joinPathData cwd.data ("temp.html" : String).data)⟩ := by
    unfold resolveP abspath
    rw [if_neg (by decide)]
    rfl
  have e2 : resolveP cwd "test.pdf" =
      ⟨normpathData (joinPathData cwd.data ("test.pdf" : String).data)⟩ := by
    unfold resolveP abspath
    rw [if_neg (by decide)]
    rfl
  rw [e1, e2] at h
  have hd := congrArg String.data h
  have hab := normpath_join_name_inj cwd.data _ _
    (by decide) (by decide) (by decide) (by decide)
    (by decide) (by decide) (by decide) (by decide) hd
  exact absurd hab (by decide)

/-! ## File-preservation lemmas: nothing in the program deletes a file
other than `os.remove('temp.html')` -/

theorem file?_setFile (fs : FS) (q p : String) (d : FileData) :
    (fs.setFile q d).file? p = if q = p then some d else fs.file? p := by
  by_cases h : q = p <;> simp [FS.setFile, FS.file?, List.find?_cons, h]

theorem find?_filter_ne (l : List (String × FileData)) (q p : String) (h : ¬ q = p) :
    List.find? (fun kv => kv.1 == p) (l.filter (fun kv => kv.1 != q)) =
      List.find? (fun kv => kv.1 == p) l := by
  induction l with
  | nil => rfl
  | cons kv t ih =>
    by_cases hq : kv.1 = q
    · have hne : (kv.1 != q) = false := by simp [hq]
      have hp2 : (kv.1 == p) = false := by
        rw [hq]
        exact beq_eq_false_iff_ne.mpr h
      simp only [List.filter_cons, hne, Bool.false_eq_true, if_false]
      rw [ih, List.find?_cons, hp2]
    · have hne : (kv.1 != q) = true := bne_iff_ne.mpr hq
      simp only [List.filter_cons, hne, if_true]
      rw [List.find?_cons, List.find?_cons]
      cases hkp : (kv.1 == p)
      · simpa using ih
      · rfl

theorem file?_remFile_ne (fs : FS) (q p : String) (h : ¬ q = p) :
    (fs.remFile q).file? p = fs.file? p := by
  unfold FS.remFile FS.file?
  rw [find?_filter_ne fs.files q p h]

theorem file?_of_files_eq (fs fs' : FS) (p : String) (h : fs'.files = fs.files) :
    fs'.file? p = fs.file? p := by
  unfold FS.file?
  rw [h]

theorem makedirs_files_eq (fs : FS) (cwd p : String) :
    (fs.makedirs cwd p).1.files = fs.files := mkChain_files fs _

theorem copy2_ok_inv (fs fs' : FS) (cwd src dst : String)
    (h : FS.copy2 fs cwd src dst = .ok fs') :
    ∃ d dp, fs.file? (resolveP cwd src) = some d
      ∧ fs' = fs.setFile dp d
      ∧ fs.hasDir dp = false
      ∧ ((fs.hasDir (resolveP cwd dst) = false ∧ dp = resolveP cwd dst)
        ∨ (fs.hasDir (resolveP cwd dst) = true
          ∧ dp = resolveP cwd (joinPath dst (basename src)))) := by
  unfold FS.copy2 at h
  dsimp only at h
  by_cases hdir : fs.hasDir (resolveP cwd dst) = true
  · rw [if_pos hdir] at h
    split at h
    · simp at h
    · split at h
      · rename_i d hd
        split at h
        · simp at h
        · rename_i hnd
          exact ⟨d, _, hd, (Except.ok.inj h).symm, by simpa using hnd,
            Or.inr ⟨hdir, rfl⟩⟩
      · split at h <;> simp at h
  · rw [if_neg hdir] at h
    split at h
    · simp at h
    · split at h
      · rename_i d hd
        exact ⟨d, _, hd, (Except.ok.inj h).symm, by simpa using hdir,
          Or.inl ⟨by simpa using hdir, rfl⟩⟩
      · split at h <;> simp at h

theorem file?_eq_none_iff (fs : FS) (q : String) :
    fs.file? q = none ↔ ∀ kv ∈ fs.files, ¬ kv.1 = q := by
  unfold FS.file?
  rw [Option.map_eq_none', List.find?_eq_none]
  constructor
  · intro h kv hkv he
    have := h kv hkv
    simp [he] at this
  · intro h kv hkv
    simpa using h kv hkv

theorem wf_file?_hasDir (fs : FS) (q : String) (d : FileData)
    (hwf : fs.wf = true) (h : fs.file? q = some d) : fs.hasDir q = false := by
  unfold FS.file? at h
  rw [Option.map_eq_some'] at h
  obtain ⟨kv, hfind, -⟩ := h
  have hmem := List.mem_of_find?_eq_some hfind
  have hkey : kv.1 = q := by simpa using List.find?_some hfind
  unfold FS.wf at hwf
  rw [List.all_eq_true] at hwf
  have := hwf kv hmem
  rw [hkey] at this
  simpa using this

theorem setFile_hasDir (fs : FS) (p : String) (d : FileData) (r : String) :
    (fs.setFile p d).hasDir r = fs.hasDir r := rfl

theorem setFile_wf (fs : FS) (p : String) (d : FileData)
    (hwf : fs.wf = true) (hp : fs.hasDir p = false) :
    (fs.setFile p d).wf = true := by
  unfold FS.wf at hwf ⊢
  rw [List.all_eq_true] at hwf ⊢
  intro kv hkv
  rw [show (fs.setFile p d).hasDir kv.1 = fs.hasDir kv.1 from rfl]
  rcases List.mem_cons.mp hkv with he | hm
  · rw [he]
    simp [hp]
  · exact hwf kv hm

theorem mkChain_wf (qs : List String) (fs : FS) (hwf : fs.wf = true) :
    (fs.mkChain qs).1.wf = true := by
  induction qs generalizing fs with
  | nil => exact hwf
  | cons q t ih =>
    unfold FS.mkChain
    by_cases hf : (fs.file? q).isSome = true
    · rw [if_pos hf]
      exact hwf
    rw [if_neg hf]
    by_cases hd : fs.hasDir q = true
    · rw [if_pos hd]
      exact ih fs hwf
    rw [if_neg hd]
    apply ih
    unfold FS.wf at hwf ⊢
    rw [List.all_eq_true] at hwf ⊢
    intro kv hkv
    have hold := hwf kv hkv
    have hnone : fs.file? q = none := by
      cases hq : fs.file? q with
      | none => rfl
      | some d => rw [hq] at hf; simp at hf
    have hne : ¬ kv.1 = q := (file?_eq_none_iff fs q).mp hnone kv hkv
    unfold FS.hasDir at hold ⊢
    simp only [List.contains_cons] at hold ⊢
    rw [show (kv.1 == q) = false by simp [hne]]
    simpa using hold

theorem makedirs_wf (fs : FS) (cwd p : String) (hwf : fs.wf = true) :
    (fs.makedirs cwd p).1.wf = true := mkChain_wf _ fs hwf

theorem processNode_wf (inDir outDir cwd : String) (fs : FS) (n : Node)
    (hwf : fs.wf = true) :
    ((processNode inDir outDir cwd fs n).stateOf).wf = true := by
  cases n with
  | text t => exact hwf
  | img src =>
    cases src with
    | none => exact hwf
    | some s =>
      unfold processNode
      dsimp only
      by_cases hs : s = ""
      · rw [if_pos hs]
        exact hwf
      rw [if_neg hs]
      by_cases hex : fs.existsP cwd (joinPath inDir (srcAdjust inDir s)) = true
      · rw [if_pos hex]
        have hwf1 : (if dirname (srcAdjust inDir s) = "" then (fs, none)
            else fs.makedirs cwd (joinPath outDir (dirname (srcAdjust inDir s)))).1.wf
            = true := by
          split
          · exact hwf
          · exact makedirs_wf fs cwd _ hwf
        cases hmk : (if dirname (srcAdjust inDir s) = "" then (fs, none)
            else fs.makedirs cwd (joinPath outDir (dirname (srcAdjust inDir s)))) with
        | mk fs1 e? =>
          rw [hmk] at hwf1
          cases e? with
          | some e => exact hwf1
          | none =>
            dsimp only
            cases hcp : fs1.copy2 cwd (joinPath inDir (srcAdjust inDir s))
                (joinPath outDir (srcAdjust inDir s)) with
            | error e => exact hwf1
            | ok fs2 =>
              obtain ⟨d, dp, -, rfl, hnd, -⟩ := copy2_ok_inv fs1 fs2 cwd _ _ hcp
              exact setFile_wf fs1 dp d hwf1 hnd
      · rw [if_neg hex]
        exact hwf

theorem runNodes_wf (inDir outDir cwd : String) (ns : List Node) (fs : FS)
    (hwf : fs.wf = true) :
    (((runNodes inDir outDir cwd ns fs).stateOf)).wf = true := by
  induction ns generalizing fs with
  | nil => exact hwf
  | cons n t ih =>
    unfold runNodes
    cases hp : processNode inDir outDir cwd fs n with
    | perr e fs1 t1 =>
      have := processNode_wf inDir outDir cwd fs n hwf
      rw [hp] at this
      exact this
    | pok n' fs1 t1 =>
      have h1 := processNode_wf inDir outDir cwd fs n hwf
      rw [hp] at h1
      have h2 := ih fs1 h1
      dsimp only
      cases hr : runNodes inDir outDir cwd t fs1 with
      | cok t' fs2 t2 =>
        rw [hr] at h2
        exact h2
      | cerr e fs2 t2 =>
        rw [hr] at h2
        exact h2

theorem processNode_keeps (inDir outDir cwd : String) (fs : FS) (n : Node) (p : String)
    (h : (fs.file? p).isSome = true) :
    (((processNode inDir outDir cwd fs n).stateOf).file? p).isSome = true := by
  cases n with
  | text t => exact h
  | img src =>
    cases src with
    | none => exact h
    | some s =>
      unfold processNode
      dsimp only
      by_cases hs : s = ""
      · rw [if_pos hs]
        exact h
      rw [if_neg hs]
      by_cases hex : fs.existsP cwd (joinPath inDir (srcAdjust inDir s)) = true
      · rw [if_pos hex]
        have hfiles : (if dirname (srcAdjust inDir s) = "" then (fs, none)
            else fs.makedirs cwd (joinPath outDir (dirname (srcAdjust inDir s)))).1.files =
            fs.files := by
          split
          · rfl
          · exact makedirs_files_eq fs cwd _
        cases hmk : (if dirname (srcAdjust inDir s) = "" then (fs, none)
            else fs.makedirs cwd (joinPath outDir (dirname (srcAdjust inDir s)))) with
        | mk fs1 e? =>
          rw [hmk] at hfiles
          have h1 : (fs1.file? p).isSome = true := by
            rw [file?_of_files_eq fs fs1 p hfiles]
            exact h
          cases e? with
          | some e => exact h1
          | none =>
            dsimp only
            cases hcp : fs1.copy2 cwd (joinPath inDir (srcAdjust inDir s))
                (joinPath outDir (srcAdjust inDir s)) with
            | error e => exact h1
            | ok fs2 =>
              obtain ⟨d, dp, -, rfl, -, -⟩ := copy2_ok_inv fs1 fs2 cwd _ _ hcp
              show ((fs1.setFile dp d).file? p).isSome = true
              rw [file?_setFile]
              split
              · simp
              · exact h1
      · rw [if_neg hex]
        exact h

theorem runNodes_keeps (inDir outDir cwd : String) (ns : List Node) (fs : FS) (p : String)
    (h : (fs.file? p).isSome = true) :
    (((runNodes inDir outDir cwd ns fs).stateOf).file? p).isSome = true := by
  induction ns generalizing fs with
  | nil => exact h
  | cons n ns ih =>
    unfold runNodes
    cases hp : processNode inDir outDir cwd fs n with
    | perr e fs1 t1 =>
      have := processNode_keeps inDir outDir cwd fs n p h
      rw [hp] at this
      exact this
    | pok n' fs1 t1 =>
      have h1 := processNode_keeps inDir outDir cwd fs n p h
      rw [hp] at h1
      have h2 := ih fs1 h1
      dsimp only
      cases hr : runNodes inDir outDir cwd ns fs1 with
      | cok ns' fs2 t2 =>
        rw [hr] at h2
        exact h2
      | cerr e fs2 t2 =>
        rw [hr] at h2
        exact h2

theorem copy_images_keeps (parse : String → List Node) (ser : List Node → String)
    (html_content input_file output_dir : String) (no_images : Bool) (cwd : String)
    (fs : FS) (p : String) (h : (fs.file? p).isSome = true) :
    (((copy_images parse ser html_content input_file output_dir no_images cwd
      fs).stateOf).file? p).isSome = true := by
  unfold copy_images
  by_cases hni : no_images = true
  · rw [if_pos hni]
    exact h
  rw [if_neg hni]
  cases hmk : fs.makedirs cwd output_dir with
  | mk fs1 e? =>
    have hfiles : fs1.files = fs.files := by
      have := makedirs_files_eq fs cwd output_dir
      rw [hmk] at this
      exact this
    have h1 : (fs1.file? p).isSome = true := by
      rw [file?_of_files_eq fs fs1 p hfiles]
      exact h
    cases e? with
    | some e => exact h1
    | none =>
      dsimp only
      have h2 := runNodes_keeps (dirname (abspath cwd input_file)) output_dir cwd
        (parse html_content) fs1 p h1
      cases hr : runNodes (dirname (abspath cwd input_file)) output_dir cwd
          (parse html_content) fs1 with
      | cok html' fs2 t =>
        rw [hr] at h2
        exact h2
      | cerr e fs2 t =>
        rw [hr] at h2
        exact h2

/-! ## Claim C8: the probe file `test.pdf` -/

/-- C8: for every invocation of any subcommand, when the renderer is
available the startup probe writes a file at `test.pdf` in the working
directory, and the program never removes it: whatever the outcome of the
run (normal, exited, or raised), the final filesystem still holds a file
at the resolved path of `test.pdf`. -/
theorem c8_probe_file_never_removed (ext : Ext) (args : Args) (cwd : String) (fs : FS)
    (h : ext.wkAvailable = true) :
    (((main ext args cwd fs).finalFS).file? (resolveP cwd "test.pdf")).isSome = true := by
  unfold main
  rw [h]
  simp only [if_true]
  have h1 : ((fs.setFile (resolveP cwd "test.pdf") ⟨ext.render "", 0⟩).file?
      (resolveP cwd "test.pdf")).isSome = true := by
    rw [file?_setFile]
    simp
  set fs1 := fs.setFile (resolveP cwd "test.pdf") ⟨ext.render "", 0⟩ with hfs1
  set output := (match args.output with | some o => o | none => defaultOutput args.command)
    with hout
  set output_dir := (if dirname (abspath cwd output) = "" then "."
    else dirname (abspath cwd output)) with hod
  have hpdf : ∀ (fsx : FS), (fsx.file? (resolveP cwd "test.pdf")).isSome = true →
      ∀ htmlf outf, (((convert_html_to_pdf ext fsx cwd htmlf outf).toOption.getD
        fsx).file? (resolveP cwd "test.pdf")).isSome = true := by
    intro fsx hx htmlf outf
    unfold convert_html_to_pdf
    cases hread : fsx.read? cwd htmlf with
    | error e => exact hx
    | ok htmlText =>
      dsimp only
      split
      · show (((fsx.setFile (resolveP cwd outf) _).file? (resolveP cwd "test.pdf"))).isSome = true
        rw [file?_setFile]
        split
        · simp
        · exact hx
      · exact hx
  cases args.command with
  | mdToPdf =>
    dsimp only
    cases hcv : convert_markdown_to_html ext fs1 cwd args.input args.bg_color args.text_color
        args.heading_color args.link_color args.code_bg args.border_color with
    | error e => exact h1
    | ok html_content =>
      dsimp only
      have hcopy := copy_images_keeps ext.parse ext.ser html_content args.input output_dir
        args.no_images cwd fs1 (resolveP cwd "test.pdf") h1
      cases hci : copy_images ext.parse ext.ser html_content args.input output_dir
          args.no_images cwd fs1 with
      | serr e fs2 tr =>
        rw [hci] at hcopy
        exact hcopy
      | sok html1 fs2 tr =>
        rw [hci] at hcopy
        dsimp only
        have h2 : ((fs2.setFile (resolveP cwd "temp.html") ⟨html1, 0⟩).file?
            (resolveP cwd "test.pdf")).isSome = true := by
          rw [file?_setFile]
          rw [if_neg (resolveP_temp_ne_test cwd)]
          exact hcopy
        cases hr : convert_html_to_pdf ext (fs2.setFile (resolveP cwd "temp.html") ⟨html1, 0⟩)
            cwd "temp.html" output with
        | error e => exact h2
        | ok fs3 =>
          dsimp only
          have h3 : (fs3.file? (resolveP cwd "test.pdf")).isSome = true := by
            have := hpdf (fs2.setFile (resolveP cwd "temp.html") ⟨html1, 0⟩) h2 "temp.html" output
            rw [hr] at this
            exact this
          show (((fs3.remFile (resolveP cwd "temp.html")).file?
            (resolveP cwd "test.pdf"))).isSome = true
          rw [file?_remFile_ne fs3 _ _ (resolveP_temp_ne_test cwd)]
          exact h3
  | mdToHtml =>
    dsimp only
    cases hcv : convert_markdown_to_html ext fs1 cwd args.input args.bg_color args.text_color
        args.heading_color args.link_color args.code_bg args.border_color with
    | error e => exact h1
    | ok html_content =>
      dsimp only
      have hcopy := copy_images_keeps ext.parse ext.ser html_content args.input output_dir
        args.no_images cwd fs1 (resolveP cwd "test.pdf") h1
      cases hci : copy_images ext.parse ext.ser html_content args.input output_dir
          args.no_images cwd fs1 with
      | serr e fs2 tr =>
        rw [hci] at hcopy
        exact hcopy
      | sok html1 fs2 tr =>
        rw [hci] at hcopy
        dsimp only
        show (((fs2.setFile (resolveP cwd output) _).file?
          (resolveP cwd "test.pdf"))).isSome = true
        rw [file?_setFile]
        split
        · simp
        · exact hcopy
  | htmlToPdf =>
    dsimp only
    cases hread : fs1.read? cwd args.input with
    | error e => exact h1
    | ok html_content =>
      dsimp only
      have hcopy := copy_images_keeps ext.parse ext.ser html_content args.input output_dir
        args.no_images cwd fs1 (resolveP cwd "test.pdf") h1
      cases hci : copy_images ext.parse ext.ser html_content args.input output_dir
          args.no_images cwd fs1 with
      | serr e fs2 tr =>
        rw [hci] at hcopy
        exact hcopy
      | sok html1 fs2 tr =>
        rw [hci] at hcopy
        dsimp only
        have h2 : ((fs2.setFile (resolveP cwd "temp.html") ⟨html1, 0⟩).file?
            (resolveP cwd "test.pdf")).isSome = true := by
          rw [file?_setFile]
          rw [if_neg (resolveP_temp_ne_test cwd)]
          exact hcopy
        cases hr : convert_html_to_pdf ext (fs2.setFile (resolveP cwd "temp.html") ⟨html1, 0⟩)
            cwd "temp.html" output with
        | error e => exact h2
        | ok fs3 =>
          dsimp only
          have h3 : (fs3.file? (resolveP cwd "test.pdf")).isSome = true := by
            have := hpdf (fs2.setFile (resolveP cwd "temp.html") ⟨html1, 0⟩) h2 "temp.html" output
            rw [hr] at this
            exact this
          show (((fs3.remFile (resolveP cwd "temp.html")).file?
            (resolveP cwd "test.pdf"))).isSome = true
          rw [file?_remFile_ne fs3 _ _ (resolveP_temp_ne_test cwd)]
          exact h3

/-- Witness for C8 at a concrete input: an `md-to-html` run. -/
theorem c8_probe_file_never_removed_witness :
    (((main extRenderOk argsMdToHtml "/w" fsDocOnly).finalFS).file?
      (resolveP "/w" "test.pdf")).isSome = true :=
  c8_probe_file_never_removed extRenderOk argsMdToHtml "/w" fsDocOnly rfl

/-! ## Claim C2: removal of the temporary `temp.html` -/

/-- C2 (code-bug evidence): the claim that `temp.html` is removed
"whether the render succeeds or fails" is violated by the code: there is
no try/finally around `convert_html_to_pdf`, so when the render raises,
`os.remove(temp_html)` is never executed.  At the concrete failing input
(an `md-to-pdf` run whose wkhtmltopdf render call fails), the run ends
with the uncaught `OSError` and `temp.html` still exists; at the same
input with a succeeding render, `temp.html` is removed. -/
theorem c2_temp_html_leaks_on_render_failure :
    (∃ fsEnd out,
      main extRenderFail argsMdToPdfPlain "/w" fsDocOnly = .raised .osError fsEnd out
      ∧ (fsEnd.file? "/w/temp.html").isSome = true)
    ∧ (main extRenderOk argsMdToPdfPlain "/w" fsDocOnly).finalFS.file? "/w/temp.html" =
        none := by
  exact ⟨⟨(main extRenderFail argsMdToPdfPlain "/w" fsDocOnly).finalFS, [], rfl, rfl⟩, rfl⟩

/-! ## Claim C5: the skip flag -/

/-- C5: for every input, when the skip flag (`--no-images`) is set,
`copy_images` returns the HTML byte-identical to its input and performs
no filesystem access: the filesystem state is unchanged and the trace of
filesystem operations (reads, directory creations, copies) is empty. -/
theorem c5_no_images_skips_everything (parse : String → List Node) (ser : List Node → String)
    (html_content input_file output_dir cwd : String) (fs : FS) :
    copy_images parse ser html_content input_file output_dir true cwd fs =
      .sok html_content fs [] := rfl

/-! ## Claim C6: literal color substitution in the template -/

/-- C6: for every set of six color option strings, the themed HTML
produced by `generate_html_template` contains each color value
substituted literally into the style block; in particular the
background color `b` appears in the substring `background-color: b;`
(so passing `#000000` yields `background-color: #000000;`). -/
theorem c6_template_colors_literal (html_content bg text heading link codebg border : String) :
    containsStr (generate_html_template html_content bg text heading link codebg border)
      ("background-color: " ++ bg ++ ";")
    ∧ containsStr (generate_html_template html_content bg text heading link codebg border) bg
    ∧ containsStr (generate_html_template html_content bg text heading link codebg border) text
    ∧ containsStr (generate_html_template html_content bg text heading link codebg border) heading
    ∧ containsStr (generate_html_template html_content bg text heading link codebg border) link
    ∧ containsStr (generate_html_template html_content bg text heading link codebg border) codebg
    ∧ containsStr (generate_html_template html_content bg text heading link codebg border) border := by
  unfold generate_html_template
  refine ⟨?_, ?_, ?_, ?_, ?_, ?_, ?_⟩ <;>
    repeat
      first
      | exact containsStr_here3 _ _ _ _ _
      | exact containsStr_here _ _ _
      | apply containsStr_left

/-! ## Claim C7: missing renderer diagnostics -/

/-- C7: for every invocation, if the external PDF renderer
(wkhtmltopdf) is not available, `main` detects this at startup via the
probe call, prints the diagnostic with platform-specific install
instructions, and exits with status 1 (leaving the filesystem
untouched). -/
theorem c7_missing_renderer_exits (ext : Ext) (args : Args) (cwd : String) (fs : FS)
    (h : ext.wkAvailable = false) :
    main ext args cwd fs = .exited 1 fs wkErrLines := by
  simp [main, h]

/-! ## Lemmas about the image loop -/

/-- A document with no image elements passes through the loop untouched,
with no filesystem operations. -/
theorem runNodes_texts (inDir outDir cwd : String) (ns : List Node) (fs : FS)
    (h : ∀ n ∈ ns, ∃ t, n = Node.text t) :
    runNodes inDir outDir cwd ns fs = .cok ns fs [] := by
  induction ns with
  | nil => rfl
  | cons n ns ih =>
    obtain ⟨t, rfl⟩ := h n (List.mem_cons_self n ns)
    unfold runNodes
    rw [show processNode inDir outDir cwd fs (Node.text t) = .pok (.text t) fs [] from rfl]
    dsimp only
    rw [ih (fun n hn => h n (List.mem_cons_of_mem _ hn))]
    simp

/-- Splitting the loop at a list append. -/
theorem runNodes_append (inDir outDir cwd : String) (a b : List Node) (fs : FS) :
    runNodes inDir outDir cwd (a ++ b) fs =
      (match runNodes inDir outDir cwd a fs with
       | .cerr e fs1 t1 => .cerr e fs1 t1
       | .cok a' fs1 t1 =>
         match runNodes inDir outDir cwd b fs1 with
         | .cok b' fs2 t2 => .cok (a' ++ b') fs2 (t1 ++ t2)
         | .cerr e fs2 t2 => .cerr e fs2 (t1 ++ t2)) := by
  induction a generalizing fs with
  | nil =>
    show runNodes inDir outDir cwd b fs = _
    cases h : runNodes inDir outDir cwd b fs with
    | cok b' fs2 t2 => simp [runNodes, h]
    | cerr e fs2 t2 => simp [runNodes, h]
  | cons n a ih =>
    have hstep : ∀ (ns : List Node) (fs : FS),
        runNodes inDir outDir cwd (n :: ns) fs =
          match processNode inDir outDir cwd fs n with
          | .perr e fs1 t1 => .cerr e fs1 t1
          | .pok n' fs1 t1 =>
            match runNodes inDir outDir cwd ns fs1 with
            | .cok ns' fs2 t2 => .cok (n' :: ns') fs2 (t1 ++ t2)
            | .cerr e fs2 t2 => .cerr e fs2 (t1 ++ t2) := fun _ _ => rfl
    rw [List.cons_append, hstep (a ++ b) fs, hstep a fs]
    cases hp : processNode inDir outDir cwd fs n with
    | perr e fs1 t1 => rfl
    | pok n' fs1 t1 =>
      dsimp only
      rw [ih fs1]
      cases ha : runNodes inDir outDir cwd a fs1 with
      | cerr e fs2 t2 => rfl
      | cok a' fs2 t2 =>
        dsimp only
        cases hb : runNodes inDir outDir cwd b fs2 with
        | cok b' fs3 t3 => simp
        | cerr e fs3 t3 => simp

/-! ## Claim C9: the output directory is created even with no images -/

/-- C9: for every invocation with the skip flag unset (given an absolute
working directory and a `makedirs` that does not collide with a file),
`copy_images` creates the output directory even when the parsed HTML
contains zero image elements: the run performs exactly the directory
creation and afterwards the output directory exists. -/
theorem c9_empty_doc_creates_output_dir (parse : String → List Node)
    (ser : List Node → String)
    (html_content input_file output_dir cwd : String) (fs fs0 : FS)
    (hcwd : isAbs cwd = true)
    (hmk : fs.makedirs cwd output_dir = (fs0, none))
    (himg : ∀ n ∈ parse html_content, ∃ t, n = Node.text t) :
    copy_images parse ser html_content input_file output_dir false cwd fs =
      .sok (ser (parse html_content)) fs0 [FSOp.mkdirsOp output_dir]
    ∧ fs0.hasDir (resolveP cwd output_dir) = true := by
  constructor
  · unfold copy_images
    rw [if_neg (by simp), hmk]
    dsimp only
    rw [runNodes_texts (dirname (abspath cwd input_file)) output_dir cwd _ fs0 himg]
  · exact makedirs_ok_hasDir fs fs0 cwd output_dir (resolveP_abs cwd output_dir hcwd) hmk

/-- Witness for C9 at a concrete input: an empty filesystem, a single
text node, output directory `/out`. -/
theorem c9_empty_doc_creates_output_dir_witness :
    copy_images (fun _ => [Node.text "<p>x</p>"]) renderHtml
        "<p>x</p>" "/w/doc.md" "/out" false "/w" ⟨[], ["/"]⟩ =
      .sok (renderHtml [Node.text "<p>x</p>"]) ⟨[], ["/out", "/"]⟩ [FSOp.mkdirsOp "/out"]
    ∧ (⟨[], ["/out", "/"]⟩ : FS).hasDir (resolveP "/w" "/out") = true :=
  c9_empty_doc_creates_output_dir (fun _ => [Node.text "<p>x</p>"]) renderHtml
    "<p>x</p>" "/w/doc.md" "/out" "/w" ⟨[], ["/"]⟩ ⟨[], ["/out", "/"]⟩
    (by decide) (by decide) (by simp)

/-- An `img` node with an absent or empty (falsy) `src` is untouched and
performs no filesystem operation. -/
theorem processNode_img_falsy (inDir outDir cwd : String) (fs : FS) (s : Option String)
    (h : s = none ∨ s = some "") :
    processNode inDir outDir cwd fs (.img s) = .pok (.img s) fs [] := by
  rcases h with rfl | rfl
  · rfl
  · simp [processNode]

/-- An `img` node whose adjusted source does not exist is untouched; the
only filesystem access on its behalf is the existence check. -/
theorem processNode_img_miss (inDir outDir cwd : String) (fs : FS) (s : String)
    (hs : ¬ s = "")
    (hmiss : fs.existsP cwd (joinPath inDir (srcAdjust inDir s)) = false) :
    processNode inDir outDir cwd fs (.img (some s)) =
      .pok (.img (some s)) fs [FSOp.statOp (joinPath inDir (srcAdjust inDir s))] := by
  simp [processNode, hs, hmiss]

/-! ## Claim C10: absent or empty src attributes -/

/-- C10: for every image element whose source attribute is absent or is
the empty string, `copy_images` leaves that element unchanged in the
output and performs no filesystem operation on its behalf: the run on
the whole document equals the rest of the run with the element passed
through and no additional state change or trace entry. -/
theorem c10_falsy_src_passthrough (parse : String → List Node) (ser : List Node → String)
    (html_content input_file output_dir cwd : String) (fs fs0 fs1 : FS)
    (pre suf pre' : List Node) (t1 : List FSOp) (n : Node)
    (hn : n = Node.img none ∨ n = Node.img (some ""))
    (hparse : parse html_content = pre ++ n :: suf)
    (hmk : fs.makedirs cwd output_dir = (fs0, none))
    (hpre : runNodes (dirname (abspath cwd input_file)) output_dir cwd pre fs0 =
      .cok pre' fs1 t1) :
    copy_images parse ser html_content input_file output_dir false cwd fs =
      (match runNodes (dirname (abspath cwd input_file)) output_dir cwd suf fs1 with
       | .cok suf' fs2 t2 =>
         .sok (ser (pre' ++ n :: suf')) fs2 (FSOp.mkdirsOp output_dir :: (t1 ++ t2))
       | .cerr e fs2 t2 => .serr e fs2 (FSOp.mkdirsOp output_dir :: (t1 ++ t2))) := by
  rcases hn with rfl | rfl <;>
  · unfold copy_images
    rw [if_neg (by simp), hmk]
    dsimp only
    rw [hparse, runNodes_append, hpre]
    dsimp only
    rw [show ∀ (m : Node) (fsx : FS),
        runNodes (dirname (abspath cwd input_file)) output_dir cwd (m :: suf) fsx =
        match processNode (dirname (abspath cwd input_file)) output_dir cwd fsx m with
        | .perr e fs2 t2 => .cerr e fs2 t2
        | .pok n' fs2 t2 =>
          match runNodes (dirname (abspath cwd input_file)) output_dir cwd suf fs2 with
          | .cok suf' fs3 t3 => .cok (n' :: suf') fs3 (t2 ++ t3)
          | .cerr e fs3 t3 => .cerr e fs3 (t2 ++ t3)
      from fun _ _ => rfl]
    first
    | rw [processNode_img_falsy _ _ _ _ none (Or.inl rfl)]
    | rw [processNode_img_falsy _ _ _ _ (some "") (Or.inr rfl)]
    dsimp only
    cases hsuf : runNodes (dirname (abspath cwd input_file)) output_dir cwd suf fs1 with
    | cok suf' fs2 t2 => simp
    | cerr e fs2 t2 => simp

/-- Witness for C10: a document `[text, img-with-empty-src, img none]`
around an empty filesystem. -/
theorem c10_falsy_src_passthrough_witness :
    copy_images (fun _ => [Node.text "t", Node.img (some ""), Node.img none]) renderHtml
        "h" "/w/doc.md" "/out" false "/w" ⟨[], ["/"]⟩ =
      (match runNodes (dirname (abspath "/w" "/w/doc.md")) "/out" "/w" [Node.img none]
          ⟨[], ["/out", "/"]⟩ with
       | .cok suf' fs2 t2 =>
         .sok (renderHtml ([Node.text "t"] ++ Node.img (some "") :: suf')) fs2
           (FSOp.mkdirsOp "/out" :: ([] ++ t2))
       | .cerr e fs2 t2 => .serr e fs2 (FSOp.mkdirsOp "/out" :: ([] ++ t2))) :=
  c10_falsy_src_passthrough (fun _ => [Node.text "t", Node.img (some ""), Node.img none])
    renderHtml "h" "/w/doc.md" "/out" "/w" ⟨[], ["/"]⟩ ⟨[], ["/out", "/"]⟩ ⟨[], ["/out", "/"]⟩
    [Node.text "t"] [Node.img none] [Node.text "t"] [] (Node.img (some ""))
    (Or.inr rfl) rfl (by decide) rfl

/-! ## Claim C4: missing referenced images are silently skipped -/

/-- C4: for every HTML document containing an image reference whose
resolved source file does not exist at the time it is processed,
`copy_images` leaves that reference's source attribute unchanged in the
output, creates no file for it (the filesystem is unchanged by that
element), and raises no error for it: the run equals the rest of the run
with the element passed through, the only additional trace entry being
the existence check. -/
theorem c4_missing_image_skipped (parse : String → List Node) (ser : List Node → String)
    (html_content input_file output_dir cwd : String) (fs fs0 fs1 : FS)
    (pre suf pre' : List Node) (t1 : List FSOp) (s : String)
    (hparse : parse html_content = pre ++ Node.img (some s) :: suf)
    (hmk : fs.makedirs cwd output_dir = (fs0, none))
    (hpre : runNodes (dirname (abspath cwd input_file)) output_dir cwd pre fs0 =
      .cok pre' fs1 t1)
    (hs : ¬ s = "")
    (hmiss : fs1.existsP cwd (joinPath (dirname (abspath cwd input_file))
      (srcAdjust (dirname (abspath cwd input_file)) s)) = false) :
    copy_images parse ser html_content input_file output_dir false cwd fs =
      (match runNodes (dirname (abspath cwd input_file)) output_dir cwd suf fs1 with
       | .cok suf' fs2 t2 =>
         .sok (ser (pre' ++ Node.img (some s) :: suf')) fs2
           (FSOp.mkdirsOp output_dir ::
             (t1 ++ (FSOp.statOp (joinPath (dirname (abspath cwd input_file))
               (srcAdjust (dirname (abspath cwd input_file)) s)) :: t2)))
       | .cerr e fs2 t2 =>
         .serr e fs2
           (FSOp.mkdirsOp output_dir ::
             (t1 ++ (FSOp.statOp (joinPath (dirname (abspath cwd input_file))
               (srcAdjust (dirname (abspath cwd input_file)) s)) :: t2)))) := by
  unfold copy_images
  rw [if_neg (by simp), hmk]
  dsimp only
  rw [hparse, runNodes_append, hpre]
  dsimp only
  have hstep : runNodes (dirname (abspath cwd input_file)) output_dir cwd
      (Node.img (some s) :: suf) fs1 =
      match processNode (dirname (abspath cwd input_file)) output_dir cwd fs1
          (Node.img (some s)) with
      | .perr e fs2 t2 => .cerr e fs2 t2
      | .pok n' fs2 t2 =>
        match runNodes (dirname (abspath cwd input_file)) output_dir cwd suf fs2 with
        | .cok suf' fs3 t3 => .cok (n' :: suf') fs3 (t2 ++ t3)
        | .cerr e fs3 t3 => .cerr e fs3 (t2 ++ t3) := rfl
  rw [hstep, processNode_img_miss _ _ _ _ _ hs hmiss]
  dsimp only
  cases hsuf : runNodes (dirname (abspath cwd input_file)) output_dir cwd suf fs1 with
  | cok suf' fs2 t2 => simp
  | cerr e fs2 t2 => simp

/-- Witness for C4: a single reference to `./missing.png` over a
filesystem that does not contain it. -/
theorem c4_missing_image_skipped_witness :
    copy_images (fun _ => [Node.img (some "./missing.png")]) renderHtml
        "h" "/w/doc.md" "/out" false "/w" ⟨[], ["/", "/w"]⟩ =
      (match runNodes (dirname (abspath "/w" "/w/doc.md")) "/out" "/w" ([] : List Node)
          ⟨[], ["/out", "/", "/w"]⟩ with
       | .cok suf' fs2 t2 =>
         .sok (renderHtml ([] ++ Node.img (some "./missing.png") :: suf')) fs2
           (FSOp.mkdirsOp "/out" ::
             ([] ++ (FSOp.statOp (joinPath (dirname (abspath "/w" "/w/doc.md"))
               (srcAdjust (dirname (abspath "/w" "/w/doc.md")) "./missing.png")) :: t2)))
       | .cerr e fs2 t2 =>
         .serr e fs2
           (FSOp.mkdirsOp "/out" ::
             ([] ++ (FSOp.statOp (joinPath (dirname (abspath "/w" "/w/doc.md"))
               (srcAdjust (dirname (abspath "/w" "/w/doc.md")) "./missing.png")) :: t2)))) :=
  c4_missing_image_skipped (fun _ => [Node.img (some "./missing.png")]) renderHtml
    "h" "/w/doc.md" "/out" "/w" ⟨[], ["/", "/w"]⟩ ⟨[], ["/out", "/", "/w"]⟩
    ⟨[], ["/out", "/", "/w"]⟩ [] [] [] [] "./missing.png"
    rfl (by decide) rfl (by decide) (by decide)

/-- Witness for C7 at a concrete input. -/
theorem c7_missing_renderer_exits_witness :
    main extNoWk argsMdToHtml "/w" ⟨[], ["/"]⟩ = .exited 1 ⟨[], ["/"]⟩ wkErrLines :=
  c7_missing_renderer_exits extNoWk argsMdToHtml "/w" ⟨[], ["/"]⟩ rfl

/-! ## Lemmas towards the relocation claim (C3) -/

theorem srcAdjust_rel (inDir s : String) (h : relSrc s) :
    srcAdjust inDir s = stripDot s := by
  unfold srcAdjust stripDot
  by_cases hd : strHasPre s "./" = true
  · rw [if_pos hd, if_pos hd]
  · rw [if_neg hd, if_neg hd, if_neg (by simp [h.2.2])]

theorem strHasPre_dot_of_abs (s : String) (h : isAbs s = true) :
    strHasPre s "./" = false ∧ strHasPre s "../" = false := by
  obtain ⟨t, ht⟩ := hasPre_exists ['/'] s.data h
  constructor
  · show hasPre ("./" : String).data s.data = false
    rw [ht]
    simp [hasPre]
  · show hasPre ("../" : String).data s.data = false
    rw [ht]
    simp [hasPre]

theorem srcAdjust_abs (inDir s : String) (h : isAbs s = true) :
    srcAdjust inDir s = s := by
  unfold srcAdjust
  rw [if_neg (by simp [(strHasPre_dot_of_abs s h).1]),
    if_neg (by simp [(strHasPre_dot_of_abs s h).2])]

theorem imgSrcs_append (a b : List Node) :
    imgSrcs (a ++ b) = imgSrcs a ++ imgSrcs b := by
  induction a with
  | nil => rfl
  | cons n t ih =>
    cases n with
    | text u => simpa [imgSrcs] using ih
    | img src => cases src <;> simp [imgSrcs, ih]

theorem runNodes_length (inDir outDir cwd : String) (ns : List Node) (fs : FS)
    (ns' : List Node) (fs' : FS) (tr : List FSOp)
    (h : runNodes inDir outDir cwd ns fs = .cok ns' fs' tr) :
    ns'.length = ns.length := by
  induction ns generalizing fs ns' fs' tr with
  | nil =>
    unfold runNodes at h
    simp only [CResult.cok.injEq] at h
    rw [← h.1]
  | cons n t ih =>
    unfold runNodes at h
    cases hp : processNode inDir outDir cwd fs n with
    | perr e fs1 t1 =>
      rw [hp] at h
      exact (CResult.noConfusion h)
    | pok n' fs1 t1 =>
      rw [hp] at h
      dsimp only at h
      cases hr : runNodes inDir outDir cwd t fs1 with
      | cok t' fs2 t2 =>
        rw [hr] at h
        simp only [CResult.cok.injEq] at h
        rw [← h.1]
        simpa using ih fs1 t' fs2 t2 hr
      | cerr e fs2 t2 =>
        rw [hr] at h
        exact (CResult.noConfusion h)

theorem setFile_dirs (fs : FS) (q : String) (d : FileData) :
    (fs.setFile q d).dirs = fs.dirs := rfl

theorem hasDir_dirs_eq (fs fs' : FS) (r : String) (hd : fs'.dirs = fs.dirs)
    (h : fs.hasDir r = true) : fs'.hasDir r = true := by
  unfold FS.hasDir at h ⊢
  rw [hd]
  exact h

theorem makedirs_hasDir_mono (fs : FS) (cwd p r : String) (h : fs.hasDir r = true) :
    (fs.makedirs cwd p).1.hasDir r = true := by
  unfold FS.hasDir at h ⊢
  rcases Bool.or_eq_true_iff.mp h with hc | hroot
  · rw [show (fs.makedirs cwd p).1.dirs.contains r = true from
      mkChain_dirs_mono fs _ r hc]
    simp
  · rw [hroot]
    simp


theorem processNode_dirs_mono (inDir outDir cwd : String) (fs : FS) (n : Node) (r : String)
    (h : fs.hasDir r = true) :
    ((processNode inDir outDir cwd fs n).stateOf).hasDir r = true := by
  cases n with
  | text t => exact h
  | img src =>
    cases src with
    | none => exact h
    | some s =>
      unfold processNode
      dsimp only
      by_cases hs : s = ""
      · rw [if_pos hs]
        exact h
      rw [if_neg hs]
      by_cases hex : fs.existsP cwd (joinPath inDir (srcAdjust inDir s)) = true
      · rw [if_pos hex]
        have hmono : (if dirname (srcAdjust inDir s) = "" then (fs, none)
            else fs.makedirs cwd (joinPath outDir (dirname (srcAdjust inDir s)))).1.hasDir
            r = true := by
          split
          · exact h
          · exact makedirs_hasDir_mono fs cwd _ r h
        cases hmk : (if dirname (srcAdjust inDir s) = "" then (fs, none)
            else fs.makedirs cwd (joinPath outDir (dirname (srcAdjust inDir s)))) with
        | mk fs1 e? =>
          rw [hmk] at hmono
          cases e? with
          | some e => exact hmono
          | none =>
            dsimp only
            cases hcp : fs1.copy2 cwd (joinPath inDir (srcAdjust inDir s))
                (joinPath outDir (srcAdjust inDir s)) with
            | error e => exact hmono
            | ok fs2 =>
              obtain ⟨d, dp, -, rfl, -, -⟩ := copy2_ok_inv fs1 fs2 cwd _ _ hcp
              exact hasDir_dirs_eq fs1 _ r (setFile_dirs fs1 _ d) hmono
      · rw [if_neg hex]
        exact h

theorem runNodes_dirs_mono (inDir outDir cwd : String) (ns : List Node) (fs : FS) (r : String)
    (h : fs.hasDir r = true) :
    (((runNodes inDir outDir cwd ns fs).stateOf)).hasDir r = true := by
  induction ns generalizing fs with
  | nil => exact h
  | cons n t ih =>
    unfold runNodes
    cases hp : processNode inDir outDir cwd fs n with
    | perr e fs1 t1 =>
      have := processNode_dirs_mono inDir outDir cwd fs n r h
      rw [hp] at this
      exact this
    | pok n' fs1 t1 =>
      have h1 := processNode_dirs_mono inDir outDir cwd fs n r h
      rw [hp] at h1
      have h2 := ih fs1 h1
      dsimp only
      cases hr : runNodes inDir outDir cwd t fs1 with
      | cok t' fs2 t2 =>
        rw [hr] at h2
        exact h2
      | cerr e fs2 t2 =>
        rw [hr] at h2
        exact h2

/-- Characterization of the filesystem effect of one successfully
processed node (on a well-formed filesystem): either a file entry is
unchanged, or the node is an image with a plain relative source, the new
content at the written path is the content of its resolved source, and
the written path is the copy destination `join(output_dir, stripped)` —
or, when a directory already sits at that destination, the redirected
path inside it. -/
theorem processNode_write_char (inDir outDir cwd : String) (habs : isAbs inDir = true)
    (fs : FS) (n n' : Node) (fs' : FS) (tr : List FSOp)
    (hwf : fs.wf = true)
    (h : processNode inDir outDir cwd fs n = .pok n' fs' tr) (p : String) :
    fs'.file? p = fs.file? p ∨
    (∃ s, n = .img (some s) ∧ relSrc s
      ∧ fs'.file? p = fs.file? (resolveP cwd (joinPath inDir (stripDot s)))
      ∧ (p = resolveP cwd (joinPath outDir (stripDot s))
        ∨ (fs'.hasDir (resolveP cwd (joinPath outDir (stripDot s))) = true
          ∧ p = resolveP cwd (joinPath (joinPath outDir (stripDot s))
              (basename (joinPath inDir (stripDot s))))))) := by
  cases n with
  | text t =>
    left
    rw [show processNode inDir outDir cwd fs (.text t) = .pok (.text t) fs [] from rfl] at h
    simp only [PResult.pok.injEq] at h
    rw [← h.2.1]
  | img src =>
    cases src with
    | none =>
      left
      rw [show processNode inDir outDir cwd fs (.img none) = .pok (.img none) fs [] from rfl] at h
      simp only [PResult.pok.injEq] at h
      rw [← h.2.1]
    | some s =>
      unfold processNode at h
      dsimp only at h
      by_cases hs : s = ""
      · rw [if_pos hs] at h
        simp only [PResult.pok.injEq] at h
        left
        rw [← h.2.1]
      rw [if_neg hs] at h
      by_cases hex : fs.existsP cwd (joinPath inDir (srcAdjust inDir s)) = true
      · rw [if_pos hex] at h
        have hfiles : (if dirname (srcAdjust inDir s) = "" then (fs, none)
            else fs.makedirs cwd (joinPath outDir (dirname (srcAdjust inDir s)))).1.files =
            fs.files := by
          split
          · rfl
          · exact makedirs_files_eq fs cwd _
        cases hmk : (if dirname (srcAdjust inDir s) = "" then (fs, none)
            else fs.makedirs cwd (joinPath outDir (dirname (srcAdjust inDir s)))) with
        | mk fs1 e? =>
          rw [hmk] at h hfiles
          cases e? with
          | some e => exact (PResult.noConfusion h)
          | none =>
            dsimp only at h
            cases hcp : fs1.copy2 cwd (joinPath inDir (srcAdjust inDir s))
                (joinPath outDir (srcAdjust inDir s)) with
            | error e =>
              rw [hcp] at h
              exact (PResult.noConfusion h)
            | ok fs2 =>
              rw [hcp] at h
              dsimp only at h
              -- the filesystem handed to the copy is still well-formed
              have hwf1 : fs1.wf = true := by
                have hq : (if dirname (srcAdjust inDir s) = "" then (fs, none)
                    else fs.makedirs cwd
                      (joinPath outDir (dirname (srcAdjust inDir s)))).1.wf = true := by
                  split
                  · exact hwf
                  · exact makedirs_wf fs cwd _ hwf
                rw [hmk] at hq
                exact hq
              -- an absolute or parent-relative source would have collapsed to a
              -- self-copy and raised SameFileError instead of succeeding (its
              -- resolved path holds a regular file, so no directory redirect)
              by_cases habs_s : isAbs s = true
              · exfalso
                have he : srcAdjust inDir s = s := srcAdjust_abs inDir s habs_s
                have h1 : joinPath inDir (srcAdjust inDir s) = srcAdjust inDir s := by
                  rw [he]
                  exact joinPath_abs_right inDir s habs_s
                have h2 : joinPath outDir (srcAdjust inDir s) = srcAdjust inDir s := by
                  rw [he]
                  exact joinPath_abs_right outDir s habs_s
                obtain ⟨d0, dp0, hd0, -, -, -⟩ := copy2_ok_inv fs1 fs2 cwd _ _ hcp
                have hnd : fs1.hasDir (resolveP cwd (joinPath inDir (srcAdjust inDir s)))
                    = false := wf_file?_hasDir fs1 _ d0 hwf1 hd0
                unfold FS.copy2 at hcp
                dsimp only at hcp
                rw [h1, h2] at hcp
                rw [h1] at hnd
                rw [ite_cond_false _ hnd, if_pos rfl] at hcp
                exact (Except.noConfusion hcp)
              by_cases hdd : strHasPre s "../" = true
              · exfalso
                have hd2 : strHasPre s "./" = false := by
                  obtain ⟨t, ht⟩ := hasPre_exists ['.', '.', '/'] s.data hdd
                  show hasPre ("./" : String).data s.data = false
                  rw [ht]
                  simp [hasPre]
                have he : srcAdjust inDir s = normpath (joinPath inDir s) := by
                  unfold srcAdjust
                  rw [if_neg (by simp [hd2]), if_pos hdd]
                have habs2 : isAbs (srcAdjust inDir s) = true := by
                  rw [he]
                  exact normpath_abs _ (joinPath_abs inDir s habs)
                have h1 : joinPath inDir (srcAdjust inDir s) = srcAdjust inDir s :=
                  joinPath_abs_right inDir _ habs2
                have h2 : joinPath outDir (srcAdjust inDir s) = srcAdjust inDir s :=
                  joinPath_abs_right outDir _ habs2
                obtain ⟨d0, dp0, hd0, -, -, -⟩ := copy2_ok_inv fs1 fs2 cwd _ _ hcp
                have hnd : fs1.hasDir (resolveP cwd (joinPath inDir (srcAdjust inDir s)))
                    = false := wf_file?_hasDir fs1 _ d0 hwf1 hd0
                unfold FS.copy2 at hcp
                dsimp only at hcp
                rw [h1, h2] at hcp
                rw [h1] at hnd
                rw [ite_cond_false _ hnd, if_pos rfl] at hcp
                exact (Except.noConfusion hcp)
              -- the remaining case is a plain relative source
              have hrel : relSrc s :=
                ⟨hs, Bool.not_eq_true _ ▸ Bool.eq_false_iff.mpr habs_s,
                  Bool.eq_false_iff.mpr hdd⟩
              have hadj : srcAdjust inDir s = stripDot s := srcAdjust_rel inDir s hrel
              obtain ⟨d', dp, hd', hfs2, -, hcases⟩ := copy2_ok_inv fs1 fs2 cwd _ _ hcp
              rw [hadj] at hd' hcases
              have hfs' : fs' = fs2 := by
                simp only [PResult.pok.injEq] at h
                rw [← h.2.1]
              have hsrcval : fs.file? (resolveP cwd (joinPath inDir (stripDot s)))
                  = some d' := by
                rw [← file?_of_files_eq fs fs1 _ hfiles]
                exact hd'
              rcases hcases with ⟨hnd, hdp⟩ | ⟨hyd, hdp⟩
              · by_cases hp : p = resolveP cwd (joinPath outDir (stripDot s))
                · right
                  refine ⟨s, rfl, hrel, ?_, Or.inl hp⟩
                  rw [hfs', hfs2, file?_setFile, if_pos (hdp.trans hp.symm), hsrcval]
                · left
                  rw [hfs', hfs2, file?_setFile, if_neg (fun he => hp (he.symm.trans hdp)),
                    file?_of_files_eq fs fs1 p hfiles]
              · by_cases hp : p = resolveP cwd (joinPath (joinPath outDir (stripDot s))
                    (basename (joinPath inDir (stripDot s))))
                · right
                  refine ⟨s, rfl, hrel, ?_, Or.inr ⟨?_, hp⟩⟩
                  · rw [hfs', hfs2, file?_setFile, if_pos (hdp.trans hp.symm), hsrcval]
                  · rw [hfs', hfs2, setFile_hasDir]
                    exact hyd
                · left
                  rw [hfs', hfs2, file?_setFile, if_neg (fun he => hp (he.symm.trans hdp)),
                    file?_of_files_eq fs fs1 p hfiles]
      · rw [if_neg hex] at h
        simp only [PResult.pok.injEq] at h
        left
        rw [← h.2.1]


/-- The dirname of an absolute path is absolute. -/
theorem dirname_abs (p : String) (h : isAbs p = true) : isAbs (dirname p) = true := by
  unfold isAbs at h ⊢
  show hasPre ['/'] (dirnameData p.data) = true
  obtain ⟨t, ht⟩ := hasPre_exists ['/'] p.data h
  have hmem : ('/' : Char) ∈ p.data := by rw [ht]; simp
  have hlt : (List.takeWhile (fun c => decide (c ≠ '/')) p.data.reverse).length <
      p.data.length := by
    have := takeWhile_length_lt (fun c => decide (c ≠ '/')) p.data.reverse
      ⟨'/', List.mem_reverse.mpr hmem, by simp⟩
    simpa using this
  unfold dirnameData
  dsimp only
  have hhead : p.data.take (p.data.length -
      (List.takeWhile (fun c => decide (c ≠ '/')) p.data.reverse).length) =
      '/' :: t.take ((p.data.length -
        (List.takeWhile (fun c => decide (c ≠ '/')) p.data.reverse).length) - 1) := by
    obtain ⟨m, hm⟩ : ∃ m, p.data.length -
        (List.takeWhile (fun c => decide (c ≠ '/')) p.data.reverse).length = m + 1 :=
      ⟨p.data.length -
        (List.takeWhile (fun c => decide (c ≠ '/')) p.data.reverse).length - 1, by omega⟩
    rw [hm, ht]
    simp [List.take]
  rw [hhead]
  split
  · rename_i hcond
    set head := '/' :: t.take ((p.data.length -
      (List.takeWhile (fun c => decide (c ≠ '/')) p.data.reverse).length) - 1) with hh
    have hne : (List.dropWhile (fun c => decide (c = '/')) head.reverse).reverse ≠ [] := by
      intro hnil
      rw [List.reverse_eq_nil_iff] at hnil
      have hall := List.dropWhile_eq_nil_iff.mp hnil
      apply hcond.2
      rw [List.all_eq_true]
      intro a ha
      simpa using hall a (List.mem_reverse.mpr ha)
    have hpre : (List.dropWhile (fun c => decide (c = '/')) head.reverse).reverse <+: head := by
      have hsfx : List.dropWhile (fun c => decide (c = '/')) head.reverse <:+ head.reverse :=
        List.dropWhile_suffix _
      have := List.reverse_prefix.mpr hsfx
      simpa using this
    obtain ⟨u, hu⟩ := hpre
    cases hres : (List.dropWhile (fun c => decide (c = '/')) head.reverse).reverse with
    | nil => exact absurd hres hne
    | cons r rs =>
      rw [hres] at hu
      have hru : head = r :: (rs ++ u) := by rw [← hu]; simp
      rw [hh] at hru
      have hr : r = '/' := (List.cons.injEq _ _ _ _ |>.mp hru.symm).1
      simp [hasPre, hr]
  · simp [hasPre]

/-- Full characterization of a successfully processed image with a plain
relative source whose resolved source file exists: the attribute is
rewritten to the stripped source, the file data is copied (content and
mtime) to the destination, nothing else changes, and the destination's
parent directory exists. -/
theorem processNode_good_img (inDir outDir cwd : String) (fs : FS) (s : String)
    (d : FileData) (n' : Node) (fs' : FS) (tr : List FSOp)
    (hcwd : isAbs cwd = true)
    (hrel : relSrc s)
    (hsrc : fs.file? (resolveP cwd (joinPath inDir (stripDot s))) = some d)
    (h : processNode inDir outDir cwd fs (.img (some s)) = .pok n' fs' tr)
    (hnd : fs'.hasDir (resolveP cwd (joinPath outDir (stripDot s))) = false) :
    n' = .img (some (stripDot s))
    ∧ fs'.file? (resolveP cwd (joinPath outDir (stripDot s))) = some d
    ∧ (∀ q, ¬ q = resolveP cwd (joinPath outDir (stripDot s)) → fs'.file? q = fs.file? q)
    ∧ (¬ dirname (stripDot s) = "" →
        fs'.hasDir (resolveP cwd (joinPath outDir (dirname (stripDot s)))) = true) := by
  unfold processNode at h
  dsimp only at h
  rw [if_neg hrel.1, srcAdjust_rel inDir s hrel] at h
  have hex : fs.existsP cwd (joinPath inDir (stripDot s)) = true := by
    unfold FS.existsP
    rw [hsrc]
    simp
  rw [if_pos hex] at h
  cases hmk : (if dirname (stripDot s) = "" then (fs, none)
      else fs.makedirs cwd (joinPath outDir (dirname (stripDot s)))) with
  | mk fs1 e? =>
    rw [hmk] at h
    have hfiles : fs1.files = fs.files := by
      have hpair : (if dirname (stripDot s) = "" then (fs, none)
          else fs.makedirs cwd (joinPath outDir (dirname (stripDot s)))).1.files =
          fs.files := by
        split
        · rfl
        · exact makedirs_files_eq fs cwd _
      rw [hmk] at hpair
      exact hpair
    cases e? with
    | some e => exact (PResult.noConfusion h)
    | none =>
      dsimp only at h
      have hdir : ¬ dirname (stripDot s) = "" →
          fs1.hasDir (resolveP cwd (joinPath outDir (dirname (stripDot s)))) = true := by
        intro hne
        rw [if_neg hne] at hmk
        exact makedirs_ok_hasDir fs fs1 cwd _ (resolveP_abs cwd _ hcwd) hmk
      cases hcp : fs1.copy2 cwd (joinPath inDir (stripDot s))
          (joinPath outDir (stripDot s)) with
      | error e =>
        rw [hcp] at h
        exact (PResult.noConfusion h)
      | ok fs2 =>
        rw [hcp] at h
        dsimp only at h
        simp only [PResult.pok.injEq] at h
        obtain ⟨hn', hfs', -⟩ := h
        obtain ⟨d', dp, hd', hfs2, -, hcases⟩ := copy2_ok_inv fs1 fs2 cwd _ _ hcp
        have hdp : dp = resolveP cwd (joinPath outDir (stripDot s)) := by
          rcases hcases with ⟨-, hdp⟩ | ⟨hyd, -⟩
          · exact hdp
          · exfalso
            rw [← hfs', hfs2, setFile_hasDir] at hnd
            rw [hnd] at hyd
            exact Bool.noConfusion hyd
        have hd1 : fs1.file? (resolveP cwd (joinPath inDir (stripDot s))) = some d := by
          rw [file?_of_files_eq fs fs1 _ hfiles]
          exact hsrc
        rw [hd1] at hd'
        have hdd : d' = d := by
          injection hd' with hdd
          exact hdd.symm
        refine ⟨hn'.symm, ?_, ?_, ?_⟩
        · rw [← hfs', hfs2, hdd, hdp, file?_setFile, if_pos rfl]
        · intro q hq
          rw [← hfs', hfs2, file?_setFile, if_neg (fun he => hq (hdp ▸ he.symm)),
            file?_of_files_eq fs fs1 q hfiles]
        · intro hne
          rw [← hfs', hfs2]
          exact hasDir_dirs_eq fs1 _ _ (setFile_dirs fs1 _ _) (hdir hne)

theorem imgSrcs_tail_mem (n : Node) (t : List Node) (x : String)
    (h : x ∈ imgSrcs t) : x ∈ imgSrcs (n :: t) := by
  cases n with
  | text u => simpa [imgSrcs] using h
  | img src => cases src <;> simp [imgSrcs, h]

/-- Joint invariant through the loop: a protected source file `S` and a
protected destination `D0` keep their data, provided the filesystem is
well-formed, no directory sits (at the end of the run, hence ever) at
any reference's copy destination, no image writes onto `S`, and every
image writing onto `D0` reads from `S`. -/
theorem runNodes_inv (inDir outDir cwd : String) (habs : isAbs inDir = true)
    (S D0 : String) (d : FileData)
    (ns : List Node) (fs : FS) (ns' : List Node) (fs' : FS) (tr : List FSOp)
    (hwf : fs.wf = true)
    (h : runNodes inDir outDir cwd ns fs = .cok ns' fs' tr)
    (hND : ∀ t ∈ imgSrcs ns, relSrc t →
      fs'.hasDir (resolveP cwd (joinPath outDir (stripDot t))) = false)
    (hD : ∀ t ∈ imgSrcs ns, relSrc t →
      ¬ resolveP cwd (joinPath outDir (stripDot t)) = S)
    (hE : ∀ t ∈ imgSrcs ns, relSrc t →
      resolveP cwd (joinPath outDir (stripDot t)) = D0 →
      resolveP cwd (joinPath inDir (stripDot t)) = S)
    (hs : fs.file? S = some d) (hd0 : fs.file? D0 = some d) :
    fs'.file? S = some d ∧ fs'.file? D0 = some d := by
  induction ns generalizing fs ns' fs' tr with
  | nil =>
    unfold runNodes at h
    simp only [CResult.cok.injEq] at h
    rw [← h.2.1]
    exact ⟨hs, hd0⟩
  | cons n t ih =>
    unfold runNodes at h
    cases hp : processNode inDir outDir cwd fs n with
    | perr e fs1 t1 =>
      rw [hp] at h
      exact (CResult.noConfusion h)
    | pok n1 fs1 t1 =>
      rw [hp] at h
      dsimp only at h
      cases hr : runNodes inDir outDir cwd t fs1 with
      | cerr e fs2 t2 =>
        rw [hr] at h
        exact (CResult.noConfusion h)
      | cok t' fs2 t2 =>
        rw [hr] at h
        simp only [CResult.cok.injEq] at h
        have hredir : ∀ u : String, u ∈ imgSrcs (n :: t) → relSrc u →
            ¬ fs1.hasDir (resolveP cwd (joinPath outDir (stripDot u))) = true := by
          intro u hu hurel hcl
          have hm := runNodes_dirs_mono inDir outDir cwd t fs1 _ hcl
          rw [hr] at hm
          dsimp only [CResult.stateOf] at hm
          rw [h.2.1] at hm
          rw [hND u hu hurel] at hm
          exact Bool.noConfusion hm
        have hS1 : fs1.file? S = some d := by
          rcases processNode_write_char inDir outDir cwd habs fs n n1 fs1 t1 hwf hp S with
            heq | ⟨u, hu, hurel, -, hloc⟩
          · rw [heq]; exact hs
          · have humem : u ∈ imgSrcs (n :: t) := by rw [hu]; simp [imgSrcs]
            rcases hloc with hup | ⟨hdirU, -⟩
            · exact absurd hup.symm (hD u humem hurel)
            · exact absurd hdirU (hredir u humem hurel)
        have hD1 : fs1.file? D0 = some d := by
          rcases processNode_write_char inDir outDir cwd habs fs n n1 fs1 t1 hwf hp D0 with
            heq | ⟨u, hu, hurel, hval, hloc⟩
          · rw [heq]; exact hd0
          · have humem : u ∈ imgSrcs (n :: t) := by rw [hu]; simp [imgSrcs]
            rcases hloc with hup | ⟨hdirU, -⟩
            · have hsrceq := hE u humem hurel hup.symm
              rw [hval, hsrceq]
              exact hs
            · exact absurd hdirU (hredir u humem hurel)
        have hwf1 : fs1.wf = true := by
          have hq := processNode_wf inDir outDir cwd fs n hwf
          rw [hp] at hq
          exact hq
        have hrec := ih fs1 t' fs2 t2 hwf1 hr
          (fun u hu hurel => by
            rw [h.2.1]
            exact hND u (imgSrcs_tail_mem n t u hu) hurel)
          (fun u hu hurel => hD u (imgSrcs_tail_mem n t u hu) hurel)
          (fun u hu hurel hud => hE u (imgSrcs_tail_mem n t u hu) hurel hud)
          hS1 hD1
        rw [← h.2.1]
        exact hrec


/-! ## Claim C3: relocation of existing relative image references -/

/-- C3 counterexample: the reference `./../x.png` in `/a/s/doc.md` with
output directory `/b/o` and the file present at `/a/x.png` is a
`./`-prefixed source whose resolved file exists, and the run succeeds;
yet the copy lands at `/b/x.png` — NOT at a path under the output
directory `/b/o` — and the attribute is rewritten to `../x.png`. -/
theorem c3_escape_counterexample :
    copy_images (fun _ => [Node.img (some "./../x.png")]) renderHtml
        "<html/>" "/a/s/doc.md" "/b/o" false "/w"
        ⟨[("/a/x.png", ⟨"X", 7⟩)], ["/", "/a", "/a/s", "/b", "/b/o"]⟩ =
      .sok "<img src=\"../x.png\"/>"
        ⟨[("/b/x.png", ⟨"X", 7⟩), ("/a/x.png", ⟨"X", 7⟩)], ["/", "/a", "/a/s", "/b", "/b/o"]⟩
        [FSOp.mkdirsOp "/b/o", FSOp.statOp "/a/s/../x.png", FSOp.mkdirsOp "/b/o/..",
         FSOp.copyOp "/a/s/../x.png" "/b/o/../x.png"]
    ∧ ([("/b/x.png", (⟨"X", 7⟩ : FileData)), ("/a/x.png", (⟨"X", 7⟩ : FileData))].all
        (fun kv => !(strHasPre kv.1 "/b/o"))) = true := by
  constructor
  · decide
  · decide

/-- C3 (amended): for every HTML document and every image reference in
it with a `./`-prefixed or plain relative source, provided
(i) the whole `copy_images` run completes without an exception,
(ii) the reference's resolved source file exists initially (on a
well-formed filesystem, where no path is both a file and a directory),
(iii) no directory sits at any reference's copy destination (otherwise
`shutil.copy2` redirects into that directory instead),
(iv) no reference's copy destination coincides with this reference's
source file, and
(v) any reference sharing this reference's destination has the same
source file,
`copy_images` produces a destination file with exactly the source's
data — byte-identical content and preserved modification time,
overwriting whatever was there — at the resolved path
`os.path.join(output_dir, stripped_source)` (which lies under the output
directory whenever the stripped source contains no parent-directory
components), creates the destination's parent directory, and rewrites
the element's source attribute to the stripped relative source. -/
theorem c3_relative_image_relocated
    (parse : String → List Node) (ser : List Node → String)
    (html_content input_file output_dir cwd : String) (fs : FS)
    (pre suf : List Node) (s : String) (d : FileData)
    (html' : String) (fsEnd : FS) (tr : List FSOp)
    (hcwd : isAbs cwd = true)
    (hparse : parse html_content = pre ++ Node.img (some s) :: suf)
    (hrel : relSrc s)
    (hsrc : fs.file? (resolveP cwd (joinPath (dirname (abspath cwd input_file))
      (stripDot s))) = some d)
    (hwf : fs.wf = true)
    (hD : ∀ t ∈ imgSrcs (parse html_content), relSrc t →
      ¬ resolveP cwd (joinPath output_dir (stripDot t)) =
        resolveP cwd (joinPath (dirname (abspath cwd input_file)) (stripDot s)))
    (hE : ∀ t ∈ imgSrcs (parse html_content), relSrc t →
      resolveP cwd (joinPath output_dir (stripDot t)) =
        resolveP cwd (joinPath output_dir (stripDot s)) →
      resolveP cwd (joinPath (dirname (abspath cwd input_file)) (stripDot t)) =
        resolveP cwd (joinPath (dirname (abspath cwd input_file)) (stripDot s)))
    (hND : ∀ t ∈ imgSrcs (parse html_content), relSrc t →
      fsEnd.hasDir (resolveP cwd (joinPath output_dir (stripDot t))) = false)
    (hrun : copy_images parse ser html_content input_file output_dir false cwd fs =
      .sok html' fsEnd tr) :
    (∃ pre' suf', html' = ser (pre' ++ Node.img (some (stripDot s)) :: suf')
      ∧ pre'.length = pre.length ∧ suf'.length = suf.length)
    ∧ fsEnd.file? (resolveP cwd (joinPath output_dir (stripDot s))) = some d
    ∧ (¬ dirname (stripDot s) = "" →
        fsEnd.hasDir (resolveP cwd (joinPath output_dir (dirname (stripDot s)))) = true) := by
  have habsIn : isAbs (dirname (abspath cwd input_file)) = true := by
    apply dirname_abs
    show isAbs (resolveP cwd input_file) = true
    exact resolveP_abs cwd input_file hcwd
  have hDall := hparse ▸ hD
  have hEall := hparse ▸ hE
  have hNDall := hparse ▸ hND
  have hmemS : s ∈ imgSrcs (pre ++ Node.img (some s) :: suf) := by
    rw [imgSrcs_append]
    exact List.mem_append_right _ (by simp [imgSrcs])
  unfold copy_images at hrun
  rw [if_neg (by simp)] at hrun
  cases hmk : fs.makedirs cwd output_dir with
  | mk fs0 e? =>
    rw [hmk] at hrun
    cases e? with
    | some e => exact (SResult.noConfusion hrun)
    | none =>
      dsimp only at hrun
      have hfiles0 : fs0.files = fs.files := by
        have hq := makedirs_files_eq fs cwd output_dir
        rw [hmk] at hq
        exact hq
      have hsrc0 : fs0.file? (resolveP cwd (joinPath (dirname (abspath cwd input_file))
          (stripDot s))) = some d := by
        rw [file?_of_files_eq fs fs0 _ hfiles0]
        exact hsrc
      have hwf0 : fs0.wf = true := by
        have hq := makedirs_wf fs cwd output_dir hwf
        rw [hmk] at hq
        exact hq
      rw [hparse, runNodes_append] at hrun
      cases hpre : runNodes (dirname (abspath cwd input_file)) output_dir cwd pre fs0 with
      | cerr e fs1 t1 =>
        rw [hpre] at hrun
        exact (SResult.noConfusion hrun)
      | cok pre' fs1 t1 =>
        rw [hpre] at hrun
        dsimp only at hrun
        cases hmid : runNodes (dirname (abspath cwd input_file)) output_dir cwd
            (Node.img (some s) :: suf) fs1 with
        | cerr e fsE2 t2 =>
          rw [hmid] at hrun
          exact (SResult.noConfusion hrun)
        | cok rest fsE2 t2 =>
          rw [hmid] at hrun
          dsimp only at hrun
          simp only [SResult.sok.injEq] at hrun
          obtain ⟨hhtml, hfsE, -⟩ := hrun
          have hmono1 : ∀ r, fs1.hasDir r = true → fsEnd.hasDir r = true := by
            intro r hcl
            have hm := runNodes_dirs_mono (dirname (abspath cwd input_file)) output_dir cwd
              (Node.img (some s) :: suf) fs1 r hcl
            rw [hmid] at hm
            rw [← hfsE]
            exact hm
          have hNDpre : ∀ u ∈ imgSrcs pre, relSrc u →
              fs1.hasDir (resolveP cwd (joinPath output_dir (stripDot u))) = false := by
            intro u hu hurel
            cases hcl : fs1.hasDir (resolveP cwd (joinPath output_dir (stripDot u))) with
            | false => rfl
            | true =>
              have hm := hmono1 _ hcl
              rw [hNDall u (by rw [imgSrcs_append]; exact List.mem_append_left _ hu)
                hurel] at hm
              exact Bool.noConfusion hm
          have hwf1 : fs1.wf = true := by
            have hq := runNodes_wf (dirname (abspath cwd input_file)) output_dir cwd
              pre fs0 hwf0
            rw [hpre] at hq
            exact hq
          have hpreInv := runNodes_inv (dirname (abspath cwd input_file)) output_dir cwd
            habsIn
            (resolveP cwd (joinPath (dirname (abspath cwd input_file)) (stripDot s)))
            (resolveP cwd (joinPath (dirname (abspath cwd input_file)) (stripDot s)))
            d pre fs0 pre' fs1 t1 hwf0 hpre hNDpre
            (fun t ht hrel2 => hDall t
              (by rw [imgSrcs_append]; exact List.mem_append_left _ ht) hrel2)
            (fun t ht hrel2 hdest => absurd hdest (hDall t
              (by rw [imgSrcs_append]; exact List.mem_append_left _ ht) hrel2))
            hsrc0 hsrc0
          have hS1 := hpreInv.1
          unfold runNodes at hmid
          cases hstep : processNode (dirname (abspath cwd input_file)) output_dir cwd fs1
              (.img (some s)) with
          | perr e fs2 t1' =>
            rw [hstep] at hmid
            exact (CResult.noConfusion hmid)
          | pok n1 fs2 t1' =>
            rw [hstep] at hmid
            dsimp only at hmid
            cases hsuf : runNodes (dirname (abspath cwd input_file)) output_dir cwd suf fs2 with
            | cerr e fsE3 t3 =>
              rw [hsuf] at hmid
              exact (CResult.noConfusion hmid)
            | cok suf' fsE3 t3 =>
              rw [hsuf] at hmid
              simp only [CResult.cok.injEq] at hmid
              obtain ⟨hrest, hfs23, -⟩ := hmid
              have hmono2 : ∀ r, fs2.hasDir r = true → fsEnd.hasDir r = true := by
                intro r hcl
                have hm := runNodes_dirs_mono (dirname (abspath cwd input_file)) output_dir
                  cwd suf fs2 r hcl
                rw [hsuf] at hm
                rw [← hfsE, ← hfs23]
                exact hm
              have hndS : fs2.hasDir (resolveP cwd (joinPath output_dir (stripDot s)))
                  = false := by
                cases hcl : fs2.hasDir (resolveP cwd (joinPath output_dir (stripDot s))) with
                | false => rfl
                | true =>
                  have hm := hmono2 _ hcl
                  rw [hNDall s hmemS hrel] at hm
                  exact Bool.noConfusion hm
              obtain ⟨hn1, hdst2, hother2, hdir2⟩ :=
                processNode_good_img (dirname (abspath cwd input_file)) output_dir cwd fs1 s d
                  n1 fs2 t1' hcwd hrel hS1 hstep hndS
              have hSneD := hDall s hmemS hrel
              have hS2 : fs2.file? (resolveP cwd (joinPath (dirname (abspath cwd input_file))
                  (stripDot s))) = some d := by
                rw [hother2 _ (fun he => hSneD he.symm)]
                exact hS1
              have hwf2 : fs2.wf = true := by
                have hq := processNode_wf (dirname (abspath cwd input_file)) output_dir cwd
                  fs1 (.img (some s)) hwf1
                rw [hstep] at hq
                exact hq
              have hNDsuf : ∀ u ∈ imgSrcs suf, relSrc u →
                  fsE3.hasDir (resolveP cwd (joinPath output_dir (stripDot u))) = false := by
                intro u hu hurel
                rw [hfs23, hfsE]
                exact hNDall u
                  (by rw [imgSrcs_append]
                      exact List.mem_append_right _ (by simp [imgSrcs, hu])) hurel
              have hsufInv := runNodes_inv (dirname (abspath cwd input_file)) output_dir cwd
                habsIn
                (resolveP cwd (joinPath (dirname (abspath cwd input_file)) (stripDot s)))
                (resolveP cwd (joinPath output_dir (stripDot s)))
                d suf fs2 suf' fsE3 t3 hwf2 hsuf hNDsuf
                (fun t ht hrel2 => hDall t
                  (by rw [imgSrcs_append]
                      exact List.mem_append_right _ (by simp [imgSrcs, ht])) hrel2)
                (fun t ht hrel2 hdest => hEall t
                  (by rw [imgSrcs_append]
                      exact List.mem_append_right _ (by simp [imgSrcs, ht])) hrel2 hdest)
                hS2 hdst2
              refine ⟨⟨pre', suf', ?_, ?_, ?_⟩, ?_, ?_⟩
              · rw [← hhtml, ← hrest, hn1]
              · exact runNodes_length _ _ _ pre fs0 pre' fs1 t1 hpre
              · exact runNodes_length _ _ _ suf fs2 suf' fsE3 t3 hsuf
              · rw [← hfsE, ← hfs23]
                exact hsufInv.2
              · intro hne
                rw [← hfsE, ← hfs23]
                have hmono := runNodes_dirs_mono (dirname (abspath cwd input_file)) output_dir
                  cwd suf fs2 _ (hdir2 hne)
                rw [hsuf] at hmono
                exact hmono

/-- Witness for the amended C3 at a concrete input: the reference
`./img/pic.png` in `/d/doc.md`, output directory `/d/out`, the source
file at `/d/img/pic.png` with content "P" and mtime 3. -/
theorem c3_relative_image_relocated_witness :
    (∃ pre' suf',
      ("a<img src=\"img/pic.png\"/>b" : String) =
        renderHtml (pre' ++ Node.img (some (stripDot "./img/pic.png")) :: suf')
      ∧ pre'.length = ([Node.text "a"] : List Node).length
      ∧ suf'.length = ([Node.text "b"] : List Node).length)
    ∧ (⟨[("/d/out/img/pic.png", ⟨"P", 3⟩), ("/d/img/pic.png", ⟨"P", 3⟩)],
        ["/d/out/img", "/d/out", "/", "/d", "/d/img"]⟩ : FS).file?
        (resolveP "/w" (joinPath "/d/out" (stripDot "./img/pic.png"))) = some ⟨"P", 3⟩
    ∧ (¬ dirname (stripDot "./img/pic.png") = "" →
        (⟨[("/d/out/img/pic.png", ⟨"P", 3⟩), ("/d/img/pic.png", ⟨"P", 3⟩)],
          ["/d/out/img", "/d/out", "/", "/d", "/d/img"]⟩ : FS).hasDir
          (resolveP "/w" (joinPath "/d/out" (dirname (stripDot "./img/pic.png")))) = true) :=
  c3_relative_image_relocated
    (fun _ => [Node.text "a", Node.img (some "./img/pic.png"), Node.text "b"]) renderHtml
    "x" "/d/doc.md" "/d/out" "/w"
    ⟨[("/d/img/pic.png", ⟨"P", 3⟩)], ["/", "/d", "/d/img"]⟩
    [Node.text "a"] [Node.text "b"] "./img/pic.png" ⟨"P", 3⟩
    "a<img src=\"img/pic.png\"/>b"
    ⟨[("/d/out/img/pic.png", ⟨"P", 3⟩), ("/d/img/pic.png", ⟨"P", 3⟩)],
      ["/d/out/img", "/d/out", "/", "/d", "/d/img"]⟩
    [FSOp.mkdirsOp "/d/out", FSOp.statOp "/d/img/pic.png", FSOp.mkdirsOp "/d/out/img",
      FSOp.copyOp "/d/img/pic.png" "/d/out/img/pic.png"]
    (by decide) rfl (by decide) (by decide) (by decide) (by decide) (by decide)
    (by decide) (by decide)

end Md2Pdf
